import Mathlib

/-!
Verification of the event-aggregation core of the pact-slack-aggregator
repository (src/pact-aggregator.ts, src/time-utils.ts, src/payload-utils.ts,
src/types.ts).

The embedding is shallow:
* JavaScript Map objects (string keys, insertion order, unique keys) are
  modelled as association lists together with get/set/has/delete operations
  that preserve insertion order exactly as the JS Map does.
* Bucket keys are strings "events:<minute>" in the source, produced by
  createBucketKey from the integer minute and parsed back by
  getMinuteFromBucketKey; this round-trip is the identity on integers, so the
  embedding uses the integer minute itself as the key.
* Timestamps are JavaScript numbers holding integral millisecond values; they
  are modelled as Int (Math.floor on a quotient of integers is Int.fdiv, and
  subtraction such as currentTime - QUIET_PERIOD_MS may go negative).
* The durable storage of the Durable Object is a Storage record; each method
  reads and writes it explicitly.  Storage operations can throw: a run is
  parameterised by an Oracle saying which storage operation (counted in
  execution order from 0) throws.  A try/catch block that swallows the error
  returns the storage as of the throw (writes that completed before the throw
  have persisted).
* A JS Set is modelled by the list of elements added to it; only membership
  is consumed.
-/

namespace PactSlack

/-- Association-list model of a JavaScript Map / plain object used as a
dictionary: get returns the value of the first (unique) matching key. -/
def mapGet {κ ν : Type} [DecidableEq κ] (m : List (κ × ν)) (k : κ) : Option ν :=
  (m.find? (fun p => decide (p.1 = k))).map Prod.snd

/-- Map.has. -/
def mapHas {κ ν : Type} [DecidableEq κ] (m : List (κ × ν)) (k : κ) : Bool :=
  m.any (fun p => decide (p.1 = k))

/-- Map.set / object property assignment: replace in place when the key is
present (preserving its position in iteration order), otherwise append a new
entry at the end, exactly as a JS Map does. -/
def mapSet {κ ν : Type} [DecidableEq κ] (m : List (κ × ν)) (k : κ) (v : ν) : List (κ × ν) :=
  if mapHas m k then m.map (fun p => if p.1 = k then (k, v) else p) else m ++ [(k, v)]

/-- Map.delete: remove the entry with the given key. -/
def mapDelete {κ ν : Type} [DecidableEq κ] (m : List (κ × ν)) (k : κ) : List (κ × ν) :=
  m.filter (fun p => decide (p.1 ≠ k))

/-- All stored events of a bucket map, in iteration order. -/
def mapFlatten {κ α : Type} (m : List (κ × List α)) : List α :=
  (m.map Prod.snd).flatten

/-- time-utils.ts getMinuteBucket: Math.floor(timestamp / bucketDuration)
(the source converts the result to a string; see the header comment on keys). -/
def getMinuteBucket (timestamp bucketDuration : Int) : Int :=
  Int.fdiv timestamp bucketDuration

/-- The fields of a normalized event that the aggregator core reads.  All
remaining payload fields (names, branches, URLs, outcome) are not inspected by
the aggregator and are collapsed into one opaque field. -/
structure PactEventData where
  pacticipantVersionNumber : String
  payload : String
deriving DecidableEq

/-- A stored event: the event data plus the ingestion timestamp ts. -/
structure StoredPactEventData where
  pacticipantVersionNumber : String
  payload : String
  ts : Int
deriving DecidableEq

/-- The spread { ...eventData, ts: currentTime } performed by addEvent. -/
def storeEvent (eventData : PactEventData) (currentTime : Int) : StoredPactEventData :=
  { pacticipantVersionNumber := eventData.pacticipantVersionNumber
    payload := eventData.payload
    ts := currentTime }

/-- The (ts, pacticipantVersionNumber) pair used by moveEvents to locate an
event in its origin bucket. -/
def evKey (e : StoredPactEventData) : Int × String :=
  (e.ts, e.pacticipantVersionNumber)

/-- The bucketed event store: Map from minute key to event list. -/
abbrev EventMap := List (Int × List StoredPactEventData)

/-- Configuration values consumed by the aggregator. -/
structure Env where
  MINUTE_BUCKET_MS : Int
  QUIET_PERIOD_MS : Int
  MAX_TIME_BEFORE_FLUSHING : Int

/-- getRecentVersionNumbers: the pacticipantVersionNumbers of the current
bucket, plus those of previous-minute events younger than
currentTime - QUIET_PERIOD_MS.  The JS Set is modelled by the list of added
elements; only membership is consumed. -/
def getRecentVersionNumbers (env : Env) (events : EventMap) (currentMinute currentTime : Int) :
    List String :=
  (((mapGet events currentMinute).getD []).map (fun e => e.pacticipantVersionNumber)) ++
    ((((mapGet events (currentMinute - 1)).getD []).filter
        (fun e => decide (currentTime - env.QUIET_PERIOD_MS < e.ts))).map
      (fun e => e.pacticipantVersionNumber))

/-- The per-event condition of the selection loop in consolidateEvents:
recentVersionNumbers.has(event.pacticipantVersionNumber) and
event.ts > currentTime - MAX_TIME_BEFORE_FLUSHING. -/
def moveCond (env : Env) (recent : List String) (currentTime : Int)
    (e : StoredPactEventData) : Bool :=
  decide (e.pacticipantVersionNumber ∈ recent) &&
    decide (currentTime - env.MAX_TIME_BEFORE_FLUSHING < e.ts)

/-- The eventsToMove list built by consolidateEvents: for each bucket other
than the current one, in map iteration order, every event satisfying moveCond,
paired with its origin bucket key. -/
def selectEventsToMove (env : Env) (events : EventMap) (currentBucketKey currentTime : Int)
    (recent : List String) : List (StoredPactEventData × Int) :=
  (events.map (fun p =>
    if p.1 = currentBucketKey then []
    else (p.2.filter (moveCond env recent currentTime)).map (fun e => (e, p.1)))).flatten

/-- Array.prototype.findIndex with the (ts, pacticipantVersionNumber) match
used by moveEvents: index of the first match, or -1. -/
def jsFindIndex (l : List StoredPactEventData) (eventToMove : StoredPactEventData) : Int :=
  match l.findIdx? (fun e =>
      decide (e.ts = eventToMove.ts) &&
        decide (e.pacticipantVersionNumber = eventToMove.pacticipantVersionNumber)) with
  | some i => (i : Int)
  | none => -1

/-- The start-index clamp of Array.prototype.splice: max(length + i, 0) for
negative i and min(i, length) otherwise. -/
def jsSpliceStart {α : Type} (l : List α) (i : Int) : Int :=
  if i < 0 then max ((l.length : Int) + i) 0 else min i (l.length : Int)

/-- Array.prototype.splice(i, 1): one element is removed at the clamped start
index (none when the clamped start is the length). -/
def jsSpliceRemove1 {α : Type} (l : List α) (i : Int) : List α :=
  l.eraseIdx (jsSpliceStart l i).toNat

/-- moveEvents: for each collected (eventToMove, fromBucket), splice the first
(ts, pacticipantVersionNumber) match out of the origin bucket and push the
event onto the current bucket (creating it when absent).  When the origin
bucket key is absent, allEvents.get(fromBucket)! is undefined and the
findIndex access throws a TypeError, modelled as none. -/
def moveEvents : List (StoredPactEventData × Int) → Int → EventMap → Option EventMap
  | [], _, m => some m
  | (eventToMove, fromBucket) :: rest, currentBucketKey, m =>
    match mapGet m fromBucket with
    | none => none
    | some fromEventList =>
      let fromEventList' := jsSpliceRemove1 fromEventList (jsFindIndex fromEventList eventToMove)
      let m1 := mapSet m fromBucket fromEventList'
      let m2 := mapSet m1 currentBucketKey (((mapGet m1 currentBucketKey).getD []) ++ [eventToMove])
      moveEvents rest currentBucketKey m2

/-- The pure core of consolidateEvents (the storage read/write around it lives
in the run functions below): compute the recent version-number set, select the
events to move, and move them. -/
def consolidateEventsCore (env : Env) (currentTime : Int) (allEvents : EventMap) :
    Option EventMap :=
  let currentMinute := getMinuteBucket currentTime env.MINUTE_BUCKET_MS
  let recent := getRecentVersionNumbers env allEvents currentMinute currentTime
  moveEvents (selectEventsToMove env allEvents currentMinute currentTime recent)
    currentMinute allEvents

/-- The bucketsToDelete list of getEventsToPublish: keys of all buckets whose
minute is not the current minute, in map iteration order. -/
def bucketsToDelete (m : EventMap) (currentMinute : Int) : List Int :=
  (m.filter (fun p => decide (p.1 ≠ currentMinute))).map Prod.fst

/-- The eventsToSend list of getEventsToPublish: concatenation of the event
lists of all buckets whose minute is not the current minute. -/
def eventsToSend (m : EventMap) (currentMinute : Int) : List StoredPactEventData :=
  ((m.filter (fun p => decide (p.1 ≠ currentMinute))).map Prod.snd).flatten

/-- The deletion loop of getEventsToPublish. -/
def deleteBuckets (m : EventMap) (keys : List Int) : EventMap :=
  keys.foldl mapDelete m

/-- A publication or verification payload as consumed by the publication
thread tracker.  The fields not read by the tracker are collapsed into one
opaque field. -/
inductive PubPayload where
  | providerVerificationPublished (providerName consumerName consumerVersionBranch : String)
      (verificationResultUrl : String) (rest : String)
  | contractRequiringVerificationPublished (providerName consumerName consumerVersionBranch : String)
      (pactUrl : String) (rest : String)
deriving DecidableEq

def PubPayload.providerName : PubPayload → String
  | .providerVerificationPublished p _ _ _ _ => p
  | .contractRequiringVerificationPublished p _ _ _ _ => p

def PubPayload.consumerName : PubPayload → String
  | .providerVerificationPublished _ c _ _ _ => c
  | .contractRequiringVerificationPublished _ c _ _ _ => c

def PubPayload.consumerVersionBranch : PubPayload → String
  | .providerVerificationPublished _ _ b _ _ => b
  | .contractRequiringVerificationPublished _ _ b _ _ => b

/-- The regular expression exec of getPactVersionFromPayload, as a left-to-
right scan: at the first position where the input continues with
"/pact-version/" followed by at least one character other than a slash, the
capture is the maximal run of such characters; otherwise the scan advances one
character. -/
def scanPactVersion : List Char → Option String
  | [] => none
  | c :: cs =>
    if List.isPrefixOf ("/pact-version/".toList) (c :: cs) then
      let capture := ((c :: cs).drop ("/pact-version/".toList.length)).takeWhile
        (fun d => decide (d ≠ '/'))
      if capture.isEmpty then scanPactVersion cs else some (String.mk capture)
    else scanPactVersion cs

/-- payload-utils.ts getPactVersionFromPayload: extract the segment after
/pact-version/ from the verification-result URL or the contract URL depending
on the event type. -/
def getPactVersionFromPayload : PubPayload → Option String
  | .providerVerificationPublished _ _ _ url _ => scanPactVersion url.toList
  | .contractRequiringVerificationPublished _ _ _ url _ => scanPactVersion url.toList

/-- makeKeyForPublicationThread.  A template literal renders undefined as the
string "undefined". -/
def makeKeyForPublicationThread (pub : PubPayload) (channel : String) : String :=
  pub.providerName ++ "|" ++ pub.consumerName ++ "|" ++ pub.consumerVersionBranch ++ "|" ++
    ((getPactVersionFromPayload pub).getD "undefined") ++ "|" ++ channel

/-- The value stored per publication-thread key. -/
structure PublicationThreadInfo where
  ts : String
  channelId : Option String
  payload : PubPayload
  summary : Option String
deriving DecidableEq

/-- setPublicationThreadTs.  The loop over existing keys sharing the same
provider|consumer|branch trio has its delete statement commented out in the
source, so it has no effect and is omitted.  The stored entry takes threadTs
and the payload from the call, while channelId falls back to the existing
entry's channelId (channelId ?? existing?.channelId) and summary is carried
over from the existing entry (existing?.summary). -/
def setPublicationThreadTs (pub : PubPayload) (channel threadTs : String)
    (channelId : Option String) (threads : List (String × PublicationThreadInfo)) :
    List (String × PublicationThreadInfo) :=
  let key := makeKeyForPublicationThread pub channel
  let existing := mapGet threads key
  mapSet threads key
    { ts := threadTs
      channelId := channelId.orElse (fun _ => existing.bind (fun i => i.channelId))
      payload := pub
      summary := existing.bind (fun i => i.summary) }

/-- The durable storage owned by one aggregator instance.  Absent keys read
as 0 via the || 0 fallback, so the numeric fields are plain integers. -/
structure Storage where
  lastEventTime : Int
  lastProcessTime : Int
  events : EventMap
  totalProcessed : Int
  lastProcessedCount : Int
  publicationThreads : List (String × PublicationThreadInfo)
deriving DecidableEq

/-- Which storage operation of a method call throws.  Operations are counted
in execution order starting from 0; fails n = true makes the n-th operation
throw. -/
structure Oracle where
  fails : Nat → Bool

/-- The oracle of an error-free run. -/
def noFailOracle : Oracle := ⟨fun _ => false⟩

/-- The body of addEvent up to the catch: storage operations are, in order,
getEvents (0), setLastEventTime (1), setEvents (2).  The result pairs the
outcome (the error value is the index of the throwing operation) with the
storage as left behind (writes before the throw have persisted). -/
def addEventRun (o : Oracle) (env : Env) (currentTime : Int) (s : Storage)
    (eventData : PactEventData) : Except Nat Unit × Storage :=
  if o.fails 0 then (Except.error 0, s) else
  let currentMinute := getMinuteBucket currentTime env.MINUTE_BUCKET_MS
  let allEvents := mapSet s.events currentMinute
    (((mapGet s.events currentMinute).getD []) ++ [storeEvent eventData currentTime])
  if o.fails 1 then (Except.error 1, s) else
  let s1 := { s with lastEventTime := currentTime }
  if o.fails 2 then (Except.error 2, s1) else
  (Except.ok (), { s1 with events := allEvents })

/-- addEvent: the catch swallows any error and the method returns normally
with whatever storage state the throw left behind. -/
def addEvent (o : Oracle) (env : Env) (currentTime : Int) (s : Storage)
    (eventData : PactEventData) : Storage :=
  (addEventRun o env currentTime s eventData).2

/-- The body of getEventsToPublish up to the catch.  Storage operations in
execution order: getEvents inside consolidateEvents (0), setEvents inside
consolidateEvents (1), getEvents (2), setLastProcessTime (3), and, when at
least one bucket is deleted, setEvents (4), the read of totalProcessed (5),
the write of totalProcessed (6) and the write of lastProcessedCount (7).
Error 8 is the TypeError of moveEvents on an absent origin bucket (thrown
between operations 0 and 1, hence before any write). -/
def getEventsToPublishRun (o : Oracle) (env : Env) (currentTime : Int) (s : Storage) :
    Except Nat (List StoredPactEventData) × Storage :=
  let currentMinute := getMinuteBucket currentTime env.MINUTE_BUCKET_MS
  if o.fails 0 then (Except.error 0, s) else
  match consolidateEventsCore env currentTime s.events with
  | none => (Except.error 8, s)
  | some consolidated =>
    if o.fails 1 then (Except.error 1, s) else
    let s1 := { s with events := consolidated }
    if o.fails 2 then (Except.error 2, s1) else
    let toSend := eventsToSend consolidated currentMinute
    let toDelete := bucketsToDelete consolidated currentMinute
    if o.fails 3 then (Except.error 3, s1) else
    let s2 := { s1 with lastProcessTime := currentTime }
    if toDelete.isEmpty then (Except.ok toSend, s2) else
    if o.fails 4 then (Except.error 4, s2) else
    let s3 := { s2 with events := deleteBuckets consolidated toDelete }
    if o.fails 5 then (Except.error 5, s3) else
    if o.fails 6 then (Except.error 6, s3) else
    let s4 := { s3 with totalProcessed := s3.totalProcessed + toSend.length }
    if o.fails 7 then (Except.error 7, s4) else
    (Except.ok toSend, { s4 with lastProcessedCount := toSend.length })

/-- getEventsToPublish: on any throw the catch returns the empty list, with
the storage as left behind by the throw. -/
def getEventsToPublish (o : Oracle) (env : Env) (currentTime : Int) (s : Storage) :
    List StoredPactEventData × Storage :=
  match getEventsToPublishRun o env currentTime s with
  | (Except.ok res, s') => (res, s')
  | (Except.error _, s') => ([], s')




section MapLemmas

variable {κ ν : Type} [DecidableEq κ]

theorem mapGet_nil (k : κ) : mapGet ([] : List (κ × ν)) k = none := rfl

theorem mapGet_cons_self {q : κ × ν} {m : List (κ × ν)} {k : κ} (h : q.1 = k) :
    mapGet (q :: m) k = some q.2 := by
  simp [mapGet, List.find?_cons, h]

theorem mapGet_cons_other {q : κ × ν} {m : List (κ × ν)} {k : κ} (h : ¬ q.1 = k) :
    mapGet (q :: m) k = mapGet m k := by
  simp [mapGet, List.find?_cons, h]

theorem mapGet_eq_some_mem {m : List (κ × ν)} {k : κ} {v : ν}
    (h : mapGet m k = some v) : (k, v) ∈ m := by
  induction m with
  | nil => simp [mapGet] at h
  | cons q m ih =>
    by_cases hq : q.1 = k
    · rw [mapGet_cons_self hq] at h
      obtain rfl : q.2 = v := by simpa using h
      have he : (k, q.2) = q := by
        cases q
        simp_all
      rw [he]
      exact List.mem_cons_self _ _
    · rw [mapGet_cons_other hq] at h
      exact List.mem_cons_of_mem _ (ih h)

theorem mem_mapGet {m : List (κ × ν)} (hnd : (m.map Prod.fst).Nodup) {k : κ} {v : ν}
    (h : (k, v) ∈ m) : mapGet m k = some v := by
  induction m with
  | nil => simp at h
  | cons q m ih =>
    simp only [List.map_cons, List.nodup_cons] at hnd
    rcases List.mem_cons.mp h with h1 | h1
    · rw [mapGet_cons_self (by rw [← h1])]
      rw [← h1]
    · have hq : ¬ q.1 = k := by
        intro he
        exact hnd.1 (he ▸ (List.mem_map.mpr ⟨(k, v), h1, rfl⟩))
      rw [mapGet_cons_other hq]
      exact ih hnd.2 h1

theorem mapHas_eq_isSome (m : List (κ × ν)) (k : κ) :
    mapHas m k = (mapGet m k).isSome := by
  induction m with
  | nil => rfl
  | cons q m ih =>
    by_cases hq : q.1 = k
    · simp [mapHas, List.any_cons, hq, mapGet_cons_self hq]
    · rw [mapGet_cons_other hq]
      simp only [mapHas, List.any_cons]
      rw [show (decide (q.1 = k)) = false by simpa using hq, Bool.false_or]
      exact ih

theorem mapGet_map_update (m : List (κ × ν)) (k : κ) (v : ν) :
    mapGet (m.map (fun p => if p.1 = k then (k, v) else p)) k =
      if mapHas m k then some v else none := by
  induction m with
  | nil => rfl
  | cons q m ih =>
    by_cases hq : q.1 = k
    · simp only [List.map_cons, if_pos hq]
      rw [mapGet_cons_self rfl]
      simp [mapHas, List.any_cons, hq]
    · simp only [List.map_cons, if_neg hq]
      rw [mapGet_cons_other hq, ih]
      simp only [mapHas, List.any_cons]
      simp only [show (decide (q.1 = k)) = false from by simp [hq], Bool.false_or]

theorem mapGet_append (m₁ m₂ : List (κ × ν)) (k : κ) :
    mapGet (m₁ ++ m₂) k = (mapGet m₁ k).or (mapGet m₂ k) := by
  unfold mapGet
  rw [List.find?_append]
  cases List.find? (fun p => decide (p.1 = k)) m₁ <;> simp

theorem mapHas_false_get_none {m : List (κ × ν)} {k : κ} (h : ¬ mapHas m k = true) :
    mapGet m k = none := by
  rw [mapHas_eq_isSome] at h
  cases hg : mapGet m k with
  | none => rfl
  | some v => rw [hg] at h; simp at h

theorem mapGet_set_self (m : List (κ × ν)) (k : κ) (v : ν) :
    mapGet (mapSet m k v) k = some v := by
  unfold mapSet
  by_cases h : mapHas m k
  · rw [if_pos h, mapGet_map_update, if_pos h]
  · rw [if_neg h, mapGet_append, mapHas_false_get_none h]
    simp [mapGet_cons_self]

theorem mapGet_set_other (m : List (κ × ν)) {k k' : κ} (h : ¬ k' = k) (v : ν) :
    mapGet (mapSet m k v) k' = mapGet m k' := by
  unfold mapSet
  by_cases hh : mapHas m k
  · rw [if_pos hh]
    induction m with
    | nil => rfl
    | cons q m ih =>
      by_cases hq : q.1 = k
      · simp only [List.map_cons, if_pos hq]
        rw [mapGet_cons_other (by simpa using fun he : (k : κ) = k' => h he.symm),
          mapGet_cons_other (fun he => h (by rw [← he, hq]))]
        by_cases hm : mapHas m k
        · exact ih hm
        · have hupd : m.map (fun p => if p.1 = k then (k, v) else p) = m := by
            have h2 : m.map (fun p => if p.1 = k then (k, v) else p) = m.map (fun p => p) := by
              refine List.map_congr_left (fun p hp => ?_)
              have hpk : ¬ p.1 = k := by
                intro he
                exact hm (List.any_eq_true.mpr ⟨p, hp, by simpa using he⟩)
              simp [hpk]
            rw [h2, List.map_id']
          rw [hupd]
      · simp only [List.map_cons, if_neg hq]
        by_cases hq' : q.1 = k'
        · rw [mapGet_cons_self hq', mapGet_cons_self hq']
        · rw [mapGet_cons_other hq', mapGet_cons_other hq']
          by_cases hm : mapHas m k
          · exact ih hm
          · have hupd : m.map (fun p => if p.1 = k then (k, v) else p) = m := by
              have h2 : m.map (fun p => if p.1 = k then (k, v) else p) = m.map (fun p => p) := by
                refine List.map_congr_left (fun p hp => ?_)
                have hpk : ¬ p.1 = k := by
                  intro he
                  exact hm (List.any_eq_true.mpr ⟨p, hp, by simpa using he⟩)
                simp [hpk]
              rw [h2, List.map_id']
            rw [hupd]
  · rw [if_neg hh, mapGet_append]
    have h1 : mapGet [(k, v)] k' = none := by
      rw [mapGet_cons_other (by intro he; exact h (by simpa using he.symm))]
      rfl
    rw [h1]
    simp

theorem mapSet_map_fst (m : List (κ × ν)) (k : κ) (v : ν) :
    (mapSet m k v).map Prod.fst =
      if mapHas m k then m.map Prod.fst else m.map Prod.fst ++ [k] := by
  unfold mapSet
  by_cases h : mapHas m k
  · rw [if_pos h, if_pos h, List.map_map]
    refine List.map_congr_left (fun p _ => ?_)
    by_cases hp : p.1 = k <;> simp [hp]
  · rw [if_neg h, if_neg h]
    simp

theorem mapSet_nodup {m : List (κ × ν)} (hnd : (m.map Prod.fst).Nodup) (k : κ) (v : ν) :
    ((mapSet m k v).map Prod.fst).Nodup := by
  rw [mapSet_map_fst]
  by_cases h : mapHas m k
  · rw [if_pos h]; exact hnd
  · rw [if_neg h]
    have hk : k ∉ m.map Prod.fst := by
      intro hmem
      rcases List.mem_map.mp hmem with ⟨p, hp, hpk⟩
      exact h (List.any_eq_true.mpr ⟨p, hp, by simpa using hpk⟩)
    rw [List.nodup_append]
    refine ⟨hnd, List.nodup_singleton k, fun a ha hak => ?_⟩
    rw [List.mem_singleton.mp hak] at ha
    exact hk ha

theorem mapGet_delete_other (m : List (κ × ν)) {k k' : κ} (h : ¬ k' = k) :
    mapGet (mapDelete m k) k' = mapGet m k' := by
  induction m with
  | nil => rfl
  | cons q m ih =>
    simp only [mapDelete, List.filter_cons] at ih ⊢
    by_cases hq : q.1 = k
    · have hq' : ¬ q.1 = k' := fun he => h (by rw [← he, hq])
      have hc : (decide (q.1 ≠ k)) = false := by simp [hq]
      rw [hc]
      simp only [Bool.false_eq_true, ite_false]
      rw [mapGet_cons_other hq']
      exact ih
    · have hc : (decide (q.1 ≠ k)) = true := by simp [hq]
      rw [hc]
      simp only [ite_true]
      by_cases hq' : q.1 = k'
      · rw [mapGet_cons_self hq', mapGet_cons_self hq']
      · rw [mapGet_cons_other hq', mapGet_cons_other hq']
        exact ih

end MapLemmas



section SpliceLemmas

theorem findIdx?_none_of_all {α : Type} (p : α → Bool) :
    ∀ (l : List α) (i : Nat), (∀ x ∈ l, ¬ p x = true) → l.findIdx? p i = none := by
  intro l
  induction l with
  | nil => intro i _; rfl
  | cons h t ih =>
    intro i hall
    rw [List.findIdx?_cons, if_neg (hall h (List.mem_cons_self _ _))]
    exact ih (i + 1) (fun x hx => hall x (List.mem_cons_of_mem _ hx))

theorem findIdx?_decompose {α : Type} (p : α → Bool) :
    ∀ (l : List α), (∃ x ∈ l, p x = true) →
    ∃ (l₁ : List α) (x : α) (l₂ : List α), l = l₁ ++ x :: l₂ ∧ p x = true ∧
      (∀ y ∈ l₁, ¬ p y = true) ∧ l.findIdx? p = some l₁.length := by
  intro l
  induction l with
  | nil => rintro ⟨x, hx, _⟩; simp at hx
  | cons h t ih =>
    rintro ⟨x, hx, hpx⟩
    by_cases hph : p h = true
    · exact ⟨[], h, t, rfl, hph, by simp, by simp [List.findIdx?_cons, hph]⟩
    · have hxt : x ∈ t := by
        rcases List.mem_cons.mp hx with h1 | h1
        · exact absurd (h1 ▸ hpx) hph
        · exact h1
      obtain ⟨l₁, x', l₂, heq, hpx', hl₁, hidx⟩ := ih ⟨x, hxt, hpx⟩
      refine ⟨h :: l₁, x', l₂, by rw [heq]; rfl, hpx', ?_, ?_⟩
      · intro y hy
        rcases List.mem_cons.mp hy with h1 | h1
        · rw [h1]; exact hph
        · exact hl₁ y h1
      · rw [List.findIdx?_cons, if_neg hph, List.findIdx?_succ, hidx]
        rfl

theorem eraseIdx_append_cons {α : Type} (l₁ : List α) (x : α) (l₂ : List α) :
    (l₁ ++ x :: l₂).eraseIdx l₁.length = l₁ ++ l₂ := by
  induction l₁ with
  | nil => rfl
  | cons a l ih => simpa [List.eraseIdx_cons_succ] using ih

/-- The Boolean match predicate of jsFindIndex agrees with equality of evKey. -/
theorem jsFindIndex_pred_iff (e x : StoredPactEventData) :
    ((decide (x.ts = e.ts) &&
        decide (x.pacticipantVersionNumber = e.pacticipantVersionNumber)) = true) ↔
      evKey x = evKey e := by
  simp [evKey, Prod.ext_iff, and_comm]

theorem jsSplice_found (e : StoredPactEventData) (l : List StoredPactEventData)
    (hmatch : ∃ x ∈ l, evKey x = evKey e) :
    ∃ l₁ x l₂, l = l₁ ++ x :: l₂ ∧ evKey x = evKey e ∧ (∀ y ∈ l₁, ¬ evKey y = evKey e) ∧
      jsSpliceRemove1 l (jsFindIndex l e) = l₁ ++ l₂ := by
  obtain ⟨x₀, hx₀, hk₀⟩ := hmatch
  obtain ⟨l₁, x, l₂, heq, hpx, hl₁, hidx⟩ := findIdx?_decompose
    (fun y => decide (y.ts = e.ts) && decide (y.pacticipantVersionNumber = e.pacticipantVersionNumber))
    l ⟨x₀, hx₀, (jsFindIndex_pred_iff e x₀).mpr hk₀⟩
  refine ⟨l₁, x, l₂, heq, (jsFindIndex_pred_iff e x).mp hpx,
    fun y hy hk => hl₁ y hy ((jsFindIndex_pred_iff e y).mpr hk), ?_⟩
  have hfi : jsFindIndex l e = (l₁.length : Int) := by
    unfold jsFindIndex
    rw [hidx]
  rw [hfi]
  unfold jsSpliceRemove1 jsSpliceStart
  have hlen : (l₁.length : Int) ≤ (l.length : Int) := by
    rw [heq]
    push_cast [List.length_append, List.length_cons]
    omega
  have hneg : ¬ ((l₁.length : Int) < 0) := by omega
  rw [if_neg hneg, min_eq_left hlen]
  rw [show ((l₁.length : Int)).toNat = l₁.length by simp]
  rw [heq, eraseIdx_append_cons]

theorem jsFindIndex_neg_one (e : StoredPactEventData) (l : List StoredPactEventData)
    (hm : ∀ x ∈ l, ¬ evKey x = evKey e) : jsFindIndex l e = -1 := by
  unfold jsFindIndex
  rw [findIdx?_none_of_all _ l 0 (fun x hx hp => hm x hx ((jsFindIndex_pred_iff e x).mp hp))]

theorem jsSplice_neg_one {α : Type} (l : List α) : jsSpliceRemove1 l (-1) = l.dropLast := by
  unfold jsSpliceRemove1 jsSpliceStart
  cases l with
  | nil => rfl
  | cons a t =>
    rw [if_pos (by norm_num)]
    have h1 : ((a :: t).length : Int) + (-1) = (t.length : Int) := by
      simp [List.length_cons]
    rw [h1, max_eq_left (by positivity)]
    rw [show ((t.length : Int)).toNat = t.length by simp]
    have h2 : t.length + 1 = (a :: t).length := by simp
    rw [List.dropLast_eq_eraseIdx h2]

end SpliceLemmas

section DrainLemmas

theorem deleteBuckets_eq_filter (ks : List Int) :
    ∀ m : EventMap, deleteBuckets m ks = m.filter (fun p => decide (p.1 ∉ ks)) := by
  induction ks with
  | nil =>
    intro m
    simp [deleteBuckets]
  | cons k ks ih =>
    intro m
    show deleteBuckets (mapDelete m k) ks = _
    rw [ih]
    unfold mapDelete
    rw [List.filter_filter]
    refine List.filter_congr (fun p _ => ?_)
    by_cases h1 : p.1 = k
    · simp [h1]
    · by_cases h2 : p.1 ∈ ks <;> simp [h1, h2]

theorem deleteBuckets_bucketsToDelete (m : EventMap) (cur : Int) :
    deleteBuckets m (bucketsToDelete m cur) = m.filter (fun p => decide (p.1 = cur)) := by
  rw [deleteBuckets_eq_filter]
  refine List.filter_congr (fun p hp => ?_)
  by_cases hc : p.1 = cur
  · have hnm : p.1 ∉ bucketsToDelete m cur := by
      intro hmem
      rcases List.mem_map.mp hmem with ⟨q, hq, hqk⟩
      rcases List.mem_filter.mp hq with ⟨_, hq2⟩
      rw [decide_eq_true_eq] at hq2
      exact hq2 (by rw [hqk, hc])
    rw [hc] at hnm
    simp [hc, hnm]
  · have hm : p.1 ∈ bucketsToDelete m cur := by
      exact List.mem_map.mpr ⟨p, List.mem_filter.mpr ⟨hp, by simpa using hc⟩, rfl⟩
    simp [hc, hm]

end DrainLemmas


section MoveLemmas

/-- The event list stored for one bucket key (empty when the key is absent). -/
def bucketL (m : EventMap) (k : Int) : List StoredPactEventData :=
  (mapGet m k).getD []

/-- Number of events of a list carrying a given (ts, version) key. -/
def keyCountL (l : List StoredPactEventData) (kk : Int × String) : Nat :=
  l.countP (fun x => decide (evKey x = kk))

/-- Number of entries of an eventsToMove list naming a given origin bucket and
(ts, version) key. -/
def tmCount (tm : List (StoredPactEventData × Int)) (b : Int) (kk : Int × String) : Nat :=
  tm.countP (fun p => decide (p.2 = b) && decide (evKey p.1 = kk))

theorem bucketL_set_self (m : EventMap) (k : Int) (v : List StoredPactEventData) :
    bucketL (mapSet m k v) k = v := by
  unfold bucketL
  rw [mapGet_set_self]
  rfl

theorem bucketL_set_other (m : EventMap) {k k' : Int} (h : ¬ k' = k)
    (v : List StoredPactEventData) : bucketL (mapSet m k v) k' = bucketL m k' := by
  unfold bucketL
  rw [mapGet_set_other m h]

theorem moveEvents_cons_eq (ev : StoredPactEventData) (b₀ cur : Int)
    (rest : List (StoredPactEventData × Int)) (m : EventMap)
    (l : List StoredPactEventData) (hget : mapGet m b₀ = some l) :
    moveEvents ((ev, b₀) :: rest) cur m =
      moveEvents rest cur
        (mapSet (mapSet m b₀ (jsSpliceRemove1 l (jsFindIndex l ev))) cur
          (((mapGet (mapSet m b₀ (jsSpliceRemove1 l (jsFindIndex l ev))) cur).getD []) ++ [ev])) := by
  show (match mapGet m b₀ with
    | none => none
    | some fromEventList =>
      let fromEventList' := jsSpliceRemove1 fromEventList (jsFindIndex fromEventList ev)
      let m1 := mapSet m b₀ fromEventList'
      let m2 := mapSet m1 cur (((mapGet m1 cur).getD []) ++ [ev])
      moveEvents rest cur m2) = _
  rw [hget]

theorem moveEvents_master (cur : Int) :
    ∀ (tm : List (StoredPactEventData × Int)) (m : EventMap),
    (m.map Prod.fst).Nodup →
    (∀ p ∈ tm, ¬ p.2 = cur) →
    (∀ b kk, tmCount tm b kk ≤ keyCountL (bucketL m b) kk) →
    ∃ m', moveEvents tm cur m = some m' ∧
      ((m'.map Prod.fst).Nodup) ∧
      (∀ b, ¬ b = cur → ∀ kk, keyCountL (bucketL m' b) kk =
          keyCountL (bucketL m b) kk - tmCount tm b kk) ∧
      (bucketL m' cur = bucketL m cur ++ tm.map Prod.fst) ∧
      (∀ b, ¬ b = cur → ∀ e, e ∈ bucketL m b →
          (∀ p ∈ tm, ¬ (p.2 = b ∧ evKey p.1 = evKey e)) → e ∈ bucketL m' b) := by
  intro tm
  induction tm with
  | nil =>
    intro m hnd _ _
    exact ⟨m, rfl, hnd, by simp [tmCount], by simp, fun b _ e he _ => he⟩
  | cons hd rest ih =>
    obtain ⟨ev, b₀⟩ := hd
    intro m hnd hcur hinv
    have hb₀ : ¬ b₀ = cur := hcur (ev, b₀) (List.mem_cons_self _ _)
    have hcur' : ∀ p ∈ rest, ¬ p.2 = cur := fun p hp => hcur p (List.mem_cons_of_mem _ hp)
    have h1 : 1 ≤ tmCount ((ev, b₀) :: rest) b₀ (evKey ev) := by
      unfold tmCount
      rw [List.countP_cons]
      simp
    have h2 : 1 ≤ keyCountL (bucketL m b₀) (evKey ev) := le_trans h1 (hinv b₀ (evKey ev))
    have hmatch : ∃ x ∈ bucketL m b₀, evKey x = evKey ev := by
      unfold keyCountL at h2
      obtain ⟨x, hx, hpx⟩ := List.countP_pos_iff.mp (Nat.lt_of_lt_of_le Nat.zero_lt_one h2)
      exact ⟨x, hx, by simpa using hpx⟩
    have hget : mapGet m b₀ = some (bucketL m b₀) := by
      cases hg : mapGet m b₀ with
      | none =>
        exfalso
        have hnil : bucketL m b₀ = [] := by unfold bucketL; rw [hg]; rfl
        rw [hnil] at h2
        simp [keyCountL] at h2
      | some l => unfold bucketL; rw [hg]; rfl
    obtain ⟨l₁, x, l₂, heq, hxk, hl₁, hsp⟩ := jsSplice_found ev (bucketL m b₀) hmatch
    have hstep := moveEvents_cons_eq ev b₀ cur rest m (bucketL m b₀) hget
    rw [hsp] at hstep
    rw [show ((mapGet (mapSet m b₀ (l₁ ++ l₂)) cur).getD []) =
        bucketL (mapSet m b₀ (l₁ ++ l₂)) cur from rfl] at hstep
    have hne_cb : ¬ cur = b₀ := fun he => hb₀ he.symm
    have hb1self : bucketL (mapSet m b₀ (l₁ ++ l₂)) b₀ = l₁ ++ l₂ := bucketL_set_self m b₀ _
    have hb1other : ∀ b, ¬ b = b₀ → bucketL (mapSet m b₀ (l₁ ++ l₂)) b = bucketL m b :=
      fun b hb => bucketL_set_other m hb _
    have hnd1 : ((mapSet m b₀ (l₁ ++ l₂)).map Prod.fst).Nodup := mapSet_nodup hnd _ _
    have hb2cur : bucketL (mapSet (mapSet m b₀ (l₁ ++ l₂)) cur
        ((bucketL (mapSet m b₀ (l₁ ++ l₂)) cur) ++ [ev])) cur = bucketL m cur ++ [ev] := by
      rw [bucketL_set_self, hb1other cur hne_cb]
    have hb2other : ∀ b, ¬ b = cur → bucketL (mapSet (mapSet m b₀ (l₁ ++ l₂)) cur
        ((bucketL (mapSet m b₀ (l₁ ++ l₂)) cur) ++ [ev])) b =
        bucketL (mapSet m b₀ (l₁ ++ l₂)) b :=
      fun b hb => bucketL_set_other _ hb _
    have hnd2 : ((mapSet (mapSet m b₀ (l₁ ++ l₂)) cur
        ((bucketL (mapSet m b₀ (l₁ ++ l₂)) cur) ++ [ev])).map Prod.fst).Nodup :=
      mapSet_nodup hnd1 _ _
    have hcnt_b₀_key : keyCountL (bucketL m b₀) (evKey ev) = keyCountL (l₁ ++ l₂) (evKey ev) + 1 := by
      rw [heq]
      unfold keyCountL
      rw [List.countP_append, List.countP_append, List.countP_cons]
      simp [hxk]
      omega
    have hcnt_b₀_other : ∀ kk, ¬ kk = evKey ev →
        keyCountL (bucketL m b₀) kk = keyCountL (l₁ ++ l₂) kk := by
      intro kk hkk
      rw [heq]
      unfold keyCountL
      rw [List.countP_append, List.countP_append, List.countP_cons]
      have hx : ¬ (decide (evKey x = kk) = true) := by
        rw [hxk]
        simp only [decide_eq_true_eq]
        exact fun he => hkk he.symm
      simp [hx]
    have htm_b₀_key : tmCount ((ev, b₀) :: rest) b₀ (evKey ev) =
        tmCount rest b₀ (evKey ev) + 1 := by
      unfold tmCount
      rw [List.countP_cons]
      simp
    have htm_other : ∀ b kk, ¬ (b = b₀ ∧ kk = evKey ev) →
        tmCount ((ev, b₀) :: rest) b kk = tmCount rest b kk := by
      intro b kk hb
      unfold tmCount
      rw [List.countP_cons]
      have hno : ¬ ((decide (b₀ = b) && decide (evKey ev = kk)) = true) := by
        simp only [Bool.and_eq_true, decide_eq_true_eq]
        rintro ⟨hbb, hkk⟩
        exact hb ⟨hbb.symm, hkk.symm⟩
      simp [hno]
    have htm_cur0 : ∀ kk, tmCount rest cur kk = 0 := by
      intro kk
      unfold tmCount
      rw [List.countP_eq_zero]
      intro p hp
      simp only [Bool.and_eq_true, decide_eq_true_eq]
      rintro ⟨hbb, _⟩
      exact hcur' p hp hbb
    have hinv2 : ∀ b kk, tmCount rest b kk ≤ keyCountL (bucketL (mapSet (mapSet m b₀ (l₁ ++ l₂)) cur
        ((bucketL (mapSet m b₀ (l₁ ++ l₂)) cur) ++ [ev])) b) kk := by
      intro b kk
      by_cases hbc : b = cur
      · rw [hbc, htm_cur0 kk]
        exact Nat.zero_le _
      · rw [hb2other b hbc]
        by_cases hbb : b = b₀
        · subst hbb
          rw [hb1self]
          by_cases hkk : kk = evKey ev
          · subst hkk
            have h3 := hinv b (evKey ev)
            rw [hcnt_b₀_key, htm_b₀_key] at h3
            omega
          · have h3 := hinv b kk
            rw [hcnt_b₀_other kk hkk, htm_other b kk (fun hc => hkk hc.2)] at h3
            exact h3
        · rw [hb1other b hbb]
          have h3 := hinv b kk
          rw [htm_other b kk (fun hc => hbb hc.1)] at h3
          exact h3
    obtain ⟨m', hme, hnd', hcount', hcurb', hsurv'⟩ := ih _ hnd2 hcur' hinv2
    refine ⟨m', by rw [hstep, hme], hnd', ?_, ?_, ?_⟩
    · intro b hb kk
      have hc := hcount' b hb kk
      rw [hb2other b hb] at hc
      by_cases hbb : b = b₀
      · subst hbb
        rw [hb1self] at hc
        by_cases hkk : kk = evKey ev
        · subst hkk
          rw [hc, htm_b₀_key, hcnt_b₀_key]
          have h3 := hinv b (evKey ev)
          rw [htm_b₀_key, hcnt_b₀_key] at h3
          omega
        · rw [hc, htm_other b kk (fun h => hkk h.2), hcnt_b₀_other kk hkk]
      · rw [hb1other b hbb] at hc
        rw [hc, htm_other b kk (fun h => hbb h.1)]
    · rw [hcurb', hb2cur]
      simp [List.append_assoc]
    · intro b hb e he hfree
      have hfree' : ∀ p ∈ rest, ¬ (p.2 = b ∧ evKey p.1 = evKey e) :=
        fun p hp => hfree p (List.mem_cons_of_mem _ hp)
      have he2 : e ∈ bucketL (mapSet (mapSet m b₀ (l₁ ++ l₂)) cur
          ((bucketL (mapSet m b₀ (l₁ ++ l₂)) cur) ++ [ev])) b := by
        rw [hb2other b hb]
        by_cases hbb : b = b₀
        · subst hbb
          rw [hb1self]
          have hkey : ¬ evKey ev = evKey e :=
            fun hk => hfree (ev, b) (List.mem_cons_self _ _) ⟨rfl, hk⟩
          have hxe : ¬ x = e := by
            intro hxe
            rw [hxe] at hxk
            exact hkey hxk.symm
          rw [heq] at he
          rcases List.mem_append.mp he with h1 | h1
          · exact List.mem_append.mpr (Or.inl h1)
          · rcases List.mem_cons.mp h1 with h1 | h1
            · exact absurd h1.symm hxe
            · exact List.mem_append.mpr (Or.inr h1)
        · rw [hb1other b hbb]
          exact he
      exact hsurv' b hb e he2 hfree'

end MoveLemmas


section FlattenLemmas

theorem mapFlatten_nil {κ α : Type} : mapFlatten ([] : List (κ × List α)) = [] := rfl

theorem mapFlatten_cons {κ α : Type} (q : κ × List α) (m : List (κ × List α)) :
    mapFlatten (q :: m) = q.2 ++ mapFlatten m := by
  simp [mapFlatten]

theorem bucketL_nil (k : Int) : bucketL [] k = [] := rfl

theorem bucketL_cons_self {q : Int × List StoredPactEventData} {m : EventMap} {k : Int}
    (h : q.1 = k) : bucketL (q :: m) k = q.2 := by
  unfold bucketL
  rw [mapGet_cons_self h]
  rfl

theorem bucketL_cons_other {q : Int × List StoredPactEventData} {m : EventMap} {k : Int}
    (h : ¬ q.1 = k) : bucketL (q :: m) k = bucketL m k := by
  unfold bucketL
  rw [mapGet_cons_other h]

theorem bucketL_not_mem {m : EventMap} {k : Int} (h : k ∉ m.map Prod.fst) :
    bucketL m k = [] := by
  have hh : ¬ mapHas m k = true := by
    intro hmem
    rcases List.any_eq_true.mp hmem with ⟨p, hp, hpk⟩
    exact h (List.mem_map.mpr ⟨p, hp, by simpa using hpk⟩)
  unfold bucketL
  rw [mapHas_false_get_none hh]
  rfl

theorem mapDelete_id {κ ν : Type} [DecidableEq κ] {m : List (κ × ν)} {k : κ}
    (h : ∀ p ∈ m, ¬ p.1 = k) : mapDelete m k = m := by
  unfold mapDelete
  rw [List.filter_eq_self]
  intro p hp
  simpa using h p hp

theorem mapSet_cons_other {κ ν : Type} [DecidableEq κ] {q : κ × ν} {m : List (κ × ν)} {k : κ}
    (h : ¬ q.1 = k) (v : ν) : mapSet (q :: m) k v = q :: mapSet m k v := by
  unfold mapSet
  have hh : mapHas (q :: m) k = mapHas m k := by
    simp [mapHas, List.any_cons, h]
  rw [hh]
  by_cases hm : mapHas m k
  · rw [if_pos hm, if_pos hm]
    simp [h]
  · rw [if_neg hm, if_neg hm]
    rfl

theorem mapFlatten_get_perm {m : EventMap} (hnd : (m.map Prod.fst).Nodup) (k : Int) :
    (mapFlatten m).Perm (bucketL m k ++ mapFlatten (mapDelete m k)) := by
  induction m with
  | nil => simp [mapFlatten_nil, bucketL_nil, mapDelete]
  | cons q m ih =>
    simp only [List.map_cons, List.nodup_cons] at hnd
    by_cases hq : q.1 = k
    · rw [bucketL_cons_self hq, mapFlatten_cons]
      have hdel : mapDelete (q :: m) k = mapDelete m k := by
        unfold mapDelete
        rw [List.filter_cons]
        simp [hq]
      have hdel2 : mapDelete m k = m := mapDelete_id (fun p hp he =>
        hnd.1 (by rw [← hq] at he; exact he ▸ List.mem_map.mpr ⟨p, hp, he.symm ▸ rfl⟩))
      rw [hdel, hdel2]
    · rw [bucketL_cons_other hq, mapFlatten_cons]
      have hdel : mapDelete (q :: m) k = q :: mapDelete m k := by
        unfold mapDelete
        rw [List.filter_cons]
        simp [hq]
      rw [hdel, mapFlatten_cons]
      have hperm := ih hnd.2
      rw [List.perm_iff_count]
      intro a
      have c := hperm.count_eq a
      simp only [List.count_append] at c ⊢
      omega

theorem mapFlatten_set_perm {m : EventMap} (hnd : (m.map Prod.fst).Nodup) (k : Int)
    (v : List StoredPactEventData) :
    (mapFlatten (mapSet m k v)).Perm (v ++ mapFlatten (mapDelete m k)) := by
  induction m with
  | nil => simp [mapSet, mapHas, mapFlatten, mapDelete]
  | cons q m ih =>
    simp only [List.map_cons, List.nodup_cons] at hnd
    by_cases hq : q.1 = k
    · have hset : mapSet (q :: m) k v = (k, v) :: m.map (fun p => if p.1 = k then (k, v) else p) := by
        unfold mapSet
        have hh : mapHas (q :: m) k = true := by
          simp [mapHas, List.any_cons, hq]
        rw [if_pos hh]
        simp [hq]
      have hid : m.map (fun p => if p.1 = k then (k, v) else p) = m := by
        have h2 : m.map (fun p => if p.1 = k then (k, v) else p) = m.map (fun p => p) := by
          refine List.map_congr_left (fun p hp => ?_)
          have hpk : ¬ p.1 = k := fun he =>
            hnd.1 (by rw [← hq] at he; exact he ▸ List.mem_map.mpr ⟨p, hp, he.symm ▸ rfl⟩)
          simp [hpk]
        rw [h2, List.map_id']
      rw [hset, hid, mapFlatten_cons]
      have hdel : mapDelete (q :: m) k = mapDelete m k := by
        unfold mapDelete
        rw [List.filter_cons]
        simp [hq]
      have hdel2 : mapDelete m k = m := mapDelete_id (fun p hp he =>
        hnd.1 (by rw [← hq] at he; exact he ▸ List.mem_map.mpr ⟨p, hp, he.symm ▸ rfl⟩))
      rw [hdel, hdel2]
    · rw [mapSet_cons_other hq, mapFlatten_cons]
      have hdel : mapDelete (q :: m) k = q :: mapDelete m k := by
        unfold mapDelete
        rw [List.filter_cons]
        simp [hq]
      rw [hdel, mapFlatten_cons]
      have hperm := ih hnd.2
      rw [List.perm_iff_count]
      intro a
      have c := hperm.count_eq a
      simp only [List.count_append] at c ⊢
      omega

theorem bucketL_mem_get {m : EventMap} {k : Int} {e : StoredPactEventData}
    (h : e ∈ bucketL m k) : mapGet m k = some (bucketL m k) := by
  cases hg : mapGet m k with
  | none =>
    exfalso
    have : bucketL m k = [] := by unfold bucketL; rw [hg]; rfl
    rw [this] at h
    simp at h
  | some l => unfold bucketL; rw [hg]; rfl

theorem bucketL_sublist_flatten {m : EventMap} {k : Int} {l : List StoredPactEventData}
    (h : mapGet m k = some l) : l.Sublist (mapFlatten m) := by
  have hmem : (k, l) ∈ m := mapGet_eq_some_mem h
  exact List.sublist_flatten_of_mem (List.mem_map.mpr ⟨(k, l), hmem, rfl⟩)

theorem moveEvents_perm (cur : Int) :
    ∀ (tm : List (StoredPactEventData × Int)) (m : EventMap),
    (m.map Prod.fst).Nodup →
    (∀ p ∈ tm, ¬ p.2 = cur) →
    (∀ p ∈ tm, p.1 ∈ bucketL m p.2) →
    ((tm.map (fun p => evKey p.1)).Nodup) →
    (((mapFlatten m).map evKey).Nodup) →
    ∀ m', moveEvents tm cur m = some m' → (mapFlatten m').Perm (mapFlatten m) := by
  intro tm
  induction tm with
  | nil =>
    intro m _ _ _ _ _ m' hm'
    obtain rfl : m = m' := by simpa [moveEvents] using hm'
    exact List.Perm.refl _
  | cons hd rest ih =>
    obtain ⟨ev, b₀⟩ := hd
    intro m hnd hcur hents htm hflat m' hm'
    have hb₀ : ¬ b₀ = cur := hcur (ev, b₀) (List.mem_cons_self _ _)
    have hcur' : ∀ p ∈ rest, ¬ p.2 = cur := fun p hp => hcur p (List.mem_cons_of_mem _ hp)
    have hev : ev ∈ bucketL m b₀ := hents (ev, b₀) (List.mem_cons_self _ _)
    have hget : mapGet m b₀ = some (bucketL m b₀) := bucketL_mem_get hev
    obtain ⟨l₁, x, l₂, heq, hxk, hl₁, hsp⟩ := jsSplice_found ev (bucketL m b₀) ⟨ev, hev, rfl⟩
    have hxev : x = ev := by
      have hsub := bucketL_sublist_flatten hget
      have hxb : x ∈ bucketL m b₀ := by
        rw [heq]
        exact List.mem_append.mpr (Or.inr (List.mem_cons_self _ _))
      have hxmem : x ∈ mapFlatten m := hsub.mem hxb
      have hevmem : ev ∈ mapFlatten m := hsub.mem hev
      exact List.inj_on_of_nodup_map hflat hxmem hevmem hxk
    have hstep := moveEvents_cons_eq ev b₀ cur rest m (bucketL m b₀) hget
    rw [hsp] at hstep
    rw [show ((mapGet (mapSet m b₀ (l₁ ++ l₂)) cur).getD []) =
        bucketL (mapSet m b₀ (l₁ ++ l₂)) cur from rfl] at hstep
    rw [hstep] at hm'
    have hnd1 : ((mapSet m b₀ (l₁ ++ l₂)).map Prod.fst).Nodup := mapSet_nodup hnd _ _
    have hnd2 : ((mapSet (mapSet m b₀ (l₁ ++ l₂)) cur
        ((bucketL (mapSet m b₀ (l₁ ++ l₂)) cur) ++ [ev])).map Prod.fst).Nodup :=
      mapSet_nodup hnd1 _ _
    -- flatten of the map after the one move is a permutation of flatten m
    have hA := mapFlatten_set_perm hnd b₀ (l₁ ++ l₂)
    have hB := mapFlatten_get_perm hnd b₀
    have hC := mapFlatten_set_perm hnd1 cur ((bucketL (mapSet m b₀ (l₁ ++ l₂)) cur) ++ [ev])
    have hD := mapFlatten_get_perm hnd1 cur
    have hperm2 : (mapFlatten (mapSet (mapSet m b₀ (l₁ ++ l₂)) cur
        ((bucketL (mapSet m b₀ (l₁ ++ l₂)) cur) ++ [ev]))).Perm (mapFlatten m) := by
      rw [List.perm_iff_count]
      intro a
      have c1 := hA.count_eq a
      have c2 := hB.count_eq a
      have c3 := hC.count_eq a
      have c4 := hD.count_eq a
      rw [heq, show (x :: l₂) = [x] ++ l₂ from rfl, hxev] at c2
      simp only [List.count_append] at c1 c2 c3 c4 ⊢
      omega
    -- hypotheses for the tail
    have hents' : ∀ p ∈ rest, p.1 ∈ bucketL (mapSet (mapSet m b₀ (l₁ ++ l₂)) cur
        ((bucketL (mapSet m b₀ (l₁ ++ l₂)) cur) ++ [ev])) p.2 := by
      intro p hp
      have hpc : ¬ p.2 = cur := hcur' p hp
      rw [bucketL_set_other _ hpc]
      by_cases hpb : p.2 = b₀
      · rw [hpb, bucketL_set_self]
        have hpe : p.1 ∈ bucketL m b₀ := by
          rw [← hpb]
          exact hents p (List.mem_cons_of_mem _ hp)
        rw [heq] at hpe
        have hne : ¬ p.1 = x := by
          intro he
          have hkeq : evKey p.1 = evKey ev := by rw [he, hxev]
          simp only [List.map_cons, List.nodup_cons] at htm
          exact htm.1 (hkeq ▸ List.mem_map.mpr ⟨p, hp, rfl⟩)
        rcases List.mem_append.mp hpe with h1 | h1
        · exact List.mem_append.mpr (Or.inl h1)
        · rcases List.mem_cons.mp h1 with h1 | h1
          · exact absurd h1 hne
          · exact List.mem_append.mpr (Or.inr h1)
      · rw [bucketL_set_other _ hpb]
        exact hents p (List.mem_cons_of_mem _ hp)
    have htm' : ((rest.map (fun p => evKey p.1)).Nodup) := by
      simp only [List.map_cons, List.nodup_cons] at htm
      exact htm.2
    have hflat' : (((mapFlatten (mapSet (mapSet m b₀ (l₁ ++ l₂)) cur
        ((bucketL (mapSet m b₀ (l₁ ++ l₂)) cur) ++ [ev]))).map evKey).Nodup) :=
      ((hperm2.map evKey).nodup_iff).mpr hflat
    exact ((ih _ hnd2 hcur' hents' htm' hflat' m' hm').trans hperm2)

end FlattenLemmas


section SelectionLemmas

/-- The selection condition of consolidateEvents depends on an event only
through its (ts, pacticipantVersionNumber) key. -/
def moveCondK (env : Env) (recent : List String) (currentTime : Int) (kk : Int × String) : Bool :=
  decide (kk.2 ∈ recent) && decide (currentTime - env.MAX_TIME_BEFORE_FLUSHING < kk.1)

theorem moveCond_eq_K (env : Env) (recent : List String) (t : Int) (e : StoredPactEventData) :
    moveCond env recent t e = moveCondK env recent t (evKey e) := rfl

theorem sel_cons (env : Env) (recent : List String) (t cur : Int)
    (q : Int × List StoredPactEventData) (m : EventMap) :
    selectEventsToMove env (q :: m) cur t recent =
      (if q.1 = cur then [] else (q.2.filter (moveCond env recent t)).map (fun e => (e, q.1))) ++
        selectEventsToMove env m cur t recent := by
  simp [selectEventsToMove]

theorem sel_forall (env : Env) (recent : List String) (t cur : Int) (m : EventMap) :
    ∀ p ∈ selectEventsToMove env m cur t recent,
      ¬ p.2 = cur ∧ moveCond env recent t p.1 = true ∧ ∃ l, (p.2, l) ∈ m ∧ p.1 ∈ l := by
  intro p hp
  unfold selectEventsToMove at hp
  rw [List.mem_flatten] at hp
  obtain ⟨comp, hcomp, hpc⟩ := hp
  rw [List.mem_map] at hcomp
  obtain ⟨q, hq, rfl⟩ := hcomp
  by_cases hqc : q.1 = cur
  · rw [if_pos hqc] at hpc
    simp at hpc
  · rw [if_neg hqc] at hpc
    rw [List.mem_map] at hpc
    obtain ⟨e, he, rfl⟩ := hpc
    rcases List.mem_filter.mp he with ⟨he1, he2⟩
    exact ⟨hqc, he2, q.2, by cases q; exact hq, he1⟩

theorem sel_of_mem (env : Env) (recent : List String) (t cur : Int) {m : EventMap}
    {b : Int} {l : List StoredPactEventData} {e : StoredPactEventData}
    (hm : (b, l) ∈ m) (hbc : ¬ b = cur) (he : e ∈ l)
    (hcond : moveCond env recent t e = true) :
    (e, b) ∈ selectEventsToMove env m cur t recent := by
  unfold selectEventsToMove
  rw [List.mem_flatten]
  refine ⟨(l.filter (moveCond env recent t)).map (fun e => (e, b)), ?_, ?_⟩
  · rw [List.mem_map]
    exact ⟨(b, l), hm, by rw [if_neg hbc]⟩
  · exact List.mem_map.mpr ⟨e, List.mem_filter.mpr ⟨he, hcond⟩, rfl⟩

theorem sel_map_fst_sublist (env : Env) (recent : List String) (t cur : Int) :
    ∀ m : EventMap,
      ((selectEventsToMove env m cur t recent).map Prod.fst).Sublist (mapFlatten m) := by
  intro m
  induction m with
  | nil => simp [selectEventsToMove, mapFlatten]
  | cons q m ih =>
    rw [sel_cons, mapFlatten_cons, List.map_append]
    refine List.Sublist.append ?_ ih
    by_cases hqc : q.1 = cur
    · rw [if_pos hqc]
      simp
    · rw [if_neg hqc, List.map_map]
      have hmm : ((fun p => p.1) ∘ (fun e => ((e, q.1) : StoredPactEventData × Int))) = id := rfl
      rw [show (Prod.fst ∘ fun e => ((e, q.1) : StoredPactEventData × Int)) = id from rfl]
      rw [List.map_id]
      exact List.filter_sublist q.2

theorem keyCountL_nil (kk : Int × String) : keyCountL [] kk = 0 := rfl

theorem tmCount_sel (env : Env) (recent : List String) (t cur : Int) :
    ∀ (m : EventMap), (m.map Prod.fst).Nodup → ∀ (b : Int) (kk : Int × String),
    tmCount (selectEventsToMove env m cur t recent) b kk =
      if b = cur then 0 else
        if moveCondK env recent t kk = true then keyCountL (bucketL m b) kk else 0 := by
  intro m
  induction m with
  | nil =>
    intro _ b kk
    have h0 : tmCount (selectEventsToMove env [] cur t recent) b kk = 0 := by
      simp [selectEventsToMove, tmCount]
    rw [h0, bucketL_nil, keyCountL_nil]
    by_cases h1 : b = cur
    · rw [if_pos h1]
    · rw [if_neg h1]
      by_cases h2 : moveCondK env recent t kk = true
      · rw [if_pos h2]
      · rw [if_neg h2]
  | cons q m ih =>
    intro hnd b kk
    simp only [List.map_cons, List.nodup_cons] at hnd
    rw [sel_cons]
    unfold tmCount
    rw [List.countP_append]
    have htail := ih hnd.2 b kk
    unfold tmCount at htail
    rw [htail]
    have hhead : List.countP (fun p => decide (p.2 = b) && decide (evKey p.1 = kk))
        (if q.1 = cur then []
          else (q.2.filter (moveCond env recent t)).map (fun e => (e, q.1))) =
        if q.1 = cur then 0 else if q.1 = b then
          (if moveCondK env recent t kk = true then keyCountL q.2 kk else 0) else 0 := by
      by_cases hqc : q.1 = cur
      · simp [hqc]
      · rw [if_neg hqc, if_neg hqc, List.countP_map]
        by_cases hqb : q.1 = b
        · rw [if_pos hqb]
          have hcomp : ((fun p => decide (p.2 = b) && decide (evKey p.1 = kk)) ∘
              (fun e => ((e, q.1) : StoredPactEventData × Int))) =
              (fun e => decide (evKey e = kk)) := by
            funext e
            simp [hqb]
          rw [hcomp, List.countP_filter]
          by_cases hck : moveCondK env recent t kk = true
          · rw [if_pos hck]
            unfold keyCountL
            rw [List.countP_eq_length_filter, List.countP_eq_length_filter]
            refine congrArg List.length (List.filter_congr (fun e _ => ?_))
            by_cases hek : evKey e = kk
            · rw [moveCond_eq_K, hek]
              simp [hck, hek]
            · simp [hek]
          · rw [if_neg hck]
            rw [List.countP_eq_zero]
            intro e _
            simp only [Bool.and_eq_true, decide_eq_true_eq]
            rintro ⟨hek, hcond⟩
            rw [moveCond_eq_K, hek] at hcond
            exact hck hcond
        · rw [if_neg hqb]
          rw [List.countP_eq_zero]
          intro e _
          simp only [Function.comp_apply, Bool.and_eq_true, decide_eq_true_eq]
          rintro ⟨hb2, _⟩
          exact hqb hb2
    rw [hhead]
    by_cases hqb : q.1 = b
    · have hbm : bucketL m b = [] := bucketL_not_mem (by rw [← hqb]; exact hnd.1)
      rw [bucketL_cons_self hqb, hbm, keyCountL_nil]
      split_ifs <;> omega
    · rw [bucketL_cons_other hqb]
      split_ifs <;> omega

end SelectionLemmas


section ConsolidateLemmas

/-- The current minute computed by the aggregator methods. -/
def currentMinuteOf (env : Env) (t : Int) : Int := getMinuteBucket t env.MINUTE_BUCKET_MS

/-- The recent version-number set computed by consolidateEvents. -/
def recentOf (env : Env) (t : Int) (m : EventMap) : List String :=
  getRecentVersionNumbers env m (currentMinuteOf env t) t

/-- The eventsToMove list computed by consolidateEvents. -/
def selOf (env : Env) (t : Int) (m : EventMap) : List (StoredPactEventData × Int) :=
  selectEventsToMove env m (currentMinuteOf env t) t (recentOf env t m)

theorem consolidateEventsCore_eq (env : Env) (t : Int) (m : EventMap) :
    consolidateEventsCore env t m = moveEvents (selOf env t m) (currentMinuteOf env t) m := rfl

theorem mem_flatten_bucketL {m : EventMap} (hnd : (m.map Prod.fst).Nodup)
    {e : StoredPactEventData} (h : e ∈ mapFlatten m) : ∃ b, e ∈ bucketL m b := by
  unfold mapFlatten at h
  rw [List.mem_flatten] at h
  obtain ⟨l, hl, hel⟩ := h
  rw [List.mem_map] at hl
  obtain ⟨q, hq, rfl⟩ := hl
  refine ⟨q.1, ?_⟩
  have hget : mapGet m q.1 = some q.2 := mem_mapGet hnd (by cases q; exact hq)
  unfold bucketL
  rw [hget]
  exact hel

theorem bucketL_subset_flatten {m : EventMap} {b : Int} {e : StoredPactEventData}
    (h : e ∈ bucketL m b) : e ∈ mapFlatten m :=
  (bucketL_sublist_flatten (bucketL_mem_get h)).mem h

theorem consolidate_spec (env : Env) (t : Int) (m : EventMap)
    (hnd : (m.map Prod.fst).Nodup) :
    ∃ mC, consolidateEventsCore env t m = some mC ∧
      ((mC.map Prod.fst).Nodup) ∧
      (∀ b, ¬ b = currentMinuteOf env t → ∀ kk, keyCountL (bucketL mC b) kk =
          keyCountL (bucketL m b) kk - tmCount (selOf env t m) b kk) ∧
      (bucketL mC (currentMinuteOf env t) =
        bucketL m (currentMinuteOf env t) ++ (selOf env t m).map Prod.fst) ∧
      (∀ b, ¬ b = currentMinuteOf env t → ∀ e, e ∈ bucketL m b →
          (∀ p ∈ selOf env t m, ¬ (p.2 = b ∧ evKey p.1 = evKey e)) → e ∈ bucketL mC b) := by
  have hcur : ∀ p ∈ selOf env t m, ¬ p.2 = currentMinuteOf env t :=
    fun p hp => (sel_forall env (recentOf env t m) t (currentMinuteOf env t) m p hp).1
  have hinv : ∀ b kk, tmCount (selOf env t m) b kk ≤ keyCountL (bucketL m b) kk := by
    intro b kk
    rw [show selOf env t m =
      selectEventsToMove env m (currentMinuteOf env t) t (recentOf env t m) from rfl]
    rw [tmCount_sel env (recentOf env t m) t (currentMinuteOf env t) m hnd b kk]
    split_ifs <;> simp
  obtain ⟨mC, h1, h2, h3, h4, h5⟩ :=
    moveEvents_master (currentMinuteOf env t) (selOf env t m) m hnd hcur hinv
  rw [← consolidateEventsCore_eq] at h1
  exact ⟨mC, h1, h2, h3, h4, h5⟩

theorem consolidate_perm (env : Env) (t : Int) (m : EventMap)
    (hnd : (m.map Prod.fst).Nodup) (hflat : ((mapFlatten m).map evKey).Nodup) :
    ∀ mC, consolidateEventsCore env t m = some mC → (mapFlatten mC).Perm (mapFlatten m) := by
  intro mC hmC
  rw [consolidateEventsCore_eq] at hmC
  refine moveEvents_perm (currentMinuteOf env t) (selOf env t m) m hnd ?_ ?_ ?_ hflat mC hmC
  · exact fun p hp => (sel_forall env (recentOf env t m) t (currentMinuteOf env t) m p hp).1
  · intro p hp
    obtain ⟨_, _, l, hml, hpl⟩ := sel_forall env (recentOf env t m) t (currentMinuteOf env t) m p hp
    have hget : mapGet m p.2 = some l := mem_mapGet hnd hml
    unfold bucketL
    rw [hget]
    exact hpl
  · have hsub := sel_map_fst_sublist env (recentOf env t m) t (currentMinuteOf env t) m
    have hsub2 := hsub.map evKey
    have hnd2 := List.Nodup.sublist hsub2 hflat
    rw [List.map_map] at hnd2
    exact hnd2

theorem consolidate_mem (env : Env) (t : Int) (m : EventMap)
    (hnd : (m.map Prod.fst).Nodup) :
    ∀ mC, consolidateEventsCore env t m = some mC →
    ∀ e ∈ mapFlatten m, e ∈ mapFlatten mC := by
  intro mC hmC e he
  obtain ⟨mC', h1, _, _, h4, h5⟩ := consolidate_spec env t m hnd
  rw [h1] at hmC
  injection hmC with heqc
  rw [← heqc]
  obtain ⟨b, heb⟩ := mem_flatten_bucketL hnd he
  by_cases hbc : b = currentMinuteOf env t
  · have hin : e ∈ bucketL mC' (currentMinuteOf env t) := by
      rw [h4]
      exact List.mem_append.mpr (Or.inl (hbc ▸ heb))
    exact bucketL_subset_flatten hin
  · by_cases hsel : moveCond env (recentOf env t m) t e = true
    · have hget : mapGet m b = some (bucketL m b) := bucketL_mem_get heb
      have hmem : (b, bucketL m b) ∈ m := mapGet_eq_some_mem hget
      have hselmem : (e, b) ∈ selOf env t m :=
        sel_of_mem env (recentOf env t m) t (currentMinuteOf env t) hmem hbc heb hsel
      have hin : e ∈ bucketL mC' (currentMinuteOf env t) := by
        rw [h4]
        exact List.mem_append.mpr (Or.inr (List.mem_map.mpr ⟨(e, b), hselmem, rfl⟩))
      exact bucketL_subset_flatten hin
    · have hfree : ∀ p ∈ selOf env t m, ¬ (p.2 = b ∧ evKey p.1 = evKey e) := by
        rintro p hp ⟨hpb, hpk⟩
        have hcond := (sel_forall env (recentOf env t m) t (currentMinuteOf env t) m p hp).2.1
        rw [moveCond_eq_K, hpk] at hcond
        exact hsel (by rw [moveCond_eq_K]; exact hcond)
      exact bucketL_subset_flatten (h5 b hbc e heb hfree)

end ConsolidateLemmas


section RunLemmas

theorem getEventsToPublish_of_run_err {o : Oracle} {env : Env} {t : Int} {s : Storage}
    {k : Nat} {s' : Storage} (h : (getEventsToPublishRun o env t s) = (Except.error k, s')) :
    getEventsToPublish o env t s = ([], s') := by
  unfold getEventsToPublish
  rw [h]

theorem getEventsToPublish_of_run_ok {o : Oracle} {env : Env} {t : Int} {s : Storage}
    {res : List StoredPactEventData} {s' : Storage}
    (h : (getEventsToPublishRun o env t s) = (Except.ok res, s')) :
    getEventsToPublish o env t s = (res, s') := by
  unfold getEventsToPublish
  rw [h]

theorem getEventsToPublishRun_ok_spec {o : Oracle} {env : Env} {t : Int} {s : Storage}
    {res : List StoredPactEventData} {s' : Storage}
    (h : getEventsToPublishRun o env t s = (Except.ok res, s')) :
    ∃ mC, consolidateEventsCore env t s.events = some mC ∧
      res = eventsToSend mC (currentMinuteOf env t) ∧
      s'.events = mC.filter (fun p => decide (p.1 = currentMinuteOf env t)) := by
  unfold getEventsToPublishRun at h
  by_cases h0 : o.fails 0 = true
  · rw [if_pos h0] at h
    simp at h
  · rw [if_neg h0] at h
    cases hc : consolidateEventsCore env t s.events with
    | none =>
      rw [hc] at h
      simp at h
    | some mC =>
      rw [hc] at h
      dsimp only at h
      refine ⟨mC, rfl, ?_⟩
      by_cases h1 : o.fails 1 = true
      · rw [if_pos h1] at h
        simp at h
      · rw [if_neg h1] at h
        by_cases h2 : o.fails 2 = true
        · rw [if_pos h2] at h
          simp at h
        · rw [if_neg h2] at h
          by_cases h3 : o.fails 3 = true
          · rw [if_pos h3] at h
            simp at h
          · rw [if_neg h3] at h
            by_cases hde : (bucketsToDelete mC
                (getMinuteBucket t env.MINUTE_BUCKET_MS)).isEmpty = true
            · rw [if_pos hde] at h
              injection h with hfst hsnd
              injection hfst with hres
              constructor
              · exact hres.symm
              · rw [← hsnd]
                have hde2 : bucketsToDelete mC (getMinuteBucket t env.MINUTE_BUCKET_MS) = [] :=
                  List.isEmpty_iff.mp hde
                have hfil : mC.filter
                    (fun p => decide (p.1 ≠ getMinuteBucket t env.MINUTE_BUCKET_MS)) = [] := by
                  unfold bucketsToDelete at hde2
                  exact List.map_eq_nil_iff.mp hde2
                have hall : ∀ p ∈ mC, p.1 = getMinuteBucket t env.MINUTE_BUCKET_MS := by
                  intro p hp
                  by_contra hne
                  have hmem : p ∈ mC.filter
                      (fun p => decide (p.1 ≠ getMinuteBucket t env.MINUTE_BUCKET_MS)) :=
                    List.mem_filter.mpr ⟨hp, by simpa using hne⟩
                  rw [hfil] at hmem
                  simp at hmem
                exact (List.filter_eq_self.mpr (fun p hp => by
                  rw [decide_eq_true_eq]
                  exact hall p hp)).symm
            · rw [if_neg hde] at h
              by_cases h4 : o.fails 4 = true
              · rw [if_pos h4] at h
                simp at h
              · rw [if_neg h4] at h
                by_cases h5 : o.fails 5 = true
                · rw [if_pos h5] at h
                  simp at h
                · rw [if_neg h5] at h
                  by_cases h6 : o.fails 6 = true
                  · rw [if_pos h6] at h
                    simp at h
                  · rw [if_neg h6] at h
                    by_cases h7 : o.fails 7 = true
                    · rw [if_pos h7] at h
                      simp at h
                    · rw [if_neg h7] at h
                      injection h with hfst hsnd
                      injection hfst with hres
                      constructor
                      · exact hres.symm
                      · rw [← hsnd]
                        exact deleteBuckets_bucketsToDelete mC
                          (getMinuteBucket t env.MINUTE_BUCKET_MS)

theorem getEventsToPublishRun_err_spec {o : Oracle} {env : Env} {t : Int} {s : Storage}
    {k : Nat} {s' : Storage}
    (h : getEventsToPublishRun o env t s = (Except.error k, s'))
    (hk5 : ¬ k = 5) (hk6 : ¬ k = 6) (hk7 : ¬ k = 7) :
    s'.events = s.events ∨ consolidateEventsCore env t s.events = some s'.events := by
  unfold getEventsToPublishRun at h
  by_cases h0 : o.fails 0 = true
  · rw [if_pos h0] at h
    injection h with _ hsnd
    exact Or.inl (by rw [← hsnd])
  · rw [if_neg h0] at h
    cases hc : consolidateEventsCore env t s.events with
    | none =>
      rw [hc] at h
      dsimp only at h
      injection h with _ hsnd
      exact Or.inl (by rw [← hsnd])
    | some mC =>
      rw [hc] at h
      dsimp only at h
      by_cases h1 : o.fails 1 = true
      · rw [if_pos h1] at h
        injection h with _ hsnd
        exact Or.inl (by rw [← hsnd])
      · rw [if_neg h1] at h
        by_cases h2 : o.fails 2 = true
        · rw [if_pos h2] at h
          injection h with _ hsnd
          exact Or.inr (by rw [← hsnd])
        · rw [if_neg h2] at h
          by_cases h3 : o.fails 3 = true
          · rw [if_pos h3] at h
            injection h with _ hsnd
            exact Or.inr (by rw [← hsnd])
          · rw [if_neg h3] at h
            by_cases hde : (bucketsToDelete mC
                (getMinuteBucket t env.MINUTE_BUCKET_MS)).isEmpty = true
            · rw [if_pos hde] at h
              injection h with hfst _
              simp at hfst
            · rw [if_neg hde] at h
              by_cases h4 : o.fails 4 = true
              · rw [if_pos h4] at h
                injection h with _ hsnd
                exact Or.inr (by rw [← hsnd])
              · rw [if_neg h4] at h
                by_cases h5 : o.fails 5 = true
                · rw [if_pos h5] at h
                  injection h with hfst _
                  injection hfst with hke
                  exact absurd hke.symm hk5
                · rw [if_neg h5] at h
                  by_cases h6 : o.fails 6 = true
                  · rw [if_pos h6] at h
                    injection h with hfst _
                    injection hfst with hke
                    exact absurd hke.symm hk6
                  · rw [if_neg h6] at h
                    by_cases h7 : o.fails 7 = true
                    · rw [if_pos h7] at h
                      injection h with hfst _
                      injection hfst with hke
                      exact absurd hke.symm hk7
                    · rw [if_neg h7] at h
                      injection h with hfst _
                      simp at hfst

theorem addEvent_eq_run (o : Oracle) (env : Env) (t : Int) (s : Storage)
    (eventData : PactEventData) :
    addEvent o env t s eventData = (addEventRun o env t s eventData).2 := rfl

theorem addEventRun_err_events {o : Oracle} {env : Env} {t : Int} {s : Storage}
    {eventData : PactEventData} {k : Nat} {s' : Storage}
    (h : addEventRun o env t s eventData = (Except.error k, s')) :
    s'.events = s.events := by
  unfold addEventRun at h
  by_cases h0 : o.fails 0 = true
  · rw [if_pos h0] at h
    injection h with _ hsnd
    rw [← hsnd]
  · rw [if_neg h0] at h
    by_cases h1 : o.fails 1 = true
    · rw [if_pos h1] at h
      injection h with _ hsnd
      rw [← hsnd]
    · rw [if_neg h1] at h
      by_cases h2 : o.fails 2 = true
      · rw [if_pos h2] at h
        injection h with _ hsnd
        rw [← hsnd]
      · rw [if_neg h2] at h
        injection h with hfst _
        simp at hfst

theorem addEventRun_ok_spec {o : Oracle} {env : Env} {t : Int} {s : Storage}
    {eventData : PactEventData} {u : Unit} {s' : Storage}
    (h : addEventRun o env t s eventData = (Except.ok u, s')) :
    s' = { s with
      lastEventTime := t
      events := mapSet s.events (currentMinuteOf env t)
        (((mapGet s.events (currentMinuteOf env t)).getD []) ++ [storeEvent eventData t]) } := by
  unfold addEventRun at h
  by_cases h0 : o.fails 0 = true
  · rw [if_pos h0] at h
    simp at h
  · rw [if_neg h0] at h
    by_cases h1 : o.fails 1 = true
    · rw [if_pos h1] at h
      simp at h
    · rw [if_neg h1] at h
      by_cases h2 : o.fails 2 = true
      · rw [if_pos h2] at h
        simp at h
      · rw [if_neg h2] at h
        injection h with _ hsnd
        exact hsnd.symm

end RunLemmas


section ClaimHelpers

theorem mapGet_none_of_all {κ ν : Type} [DecidableEq κ] {m : List (κ × ν)} {k : κ}
    (h : ∀ p ∈ m, ¬ p.1 = k) : mapGet m k = none := by
  apply mapHas_false_get_none
  intro hh
  rcases List.any_eq_true.mp hh with ⟨p, hp, hpk⟩
  exact h p hp (by simpa using hpk)

theorem mapGet_filter_key {κ ν : Type} [DecidableEq κ] (m : List (κ × ν)) (k : κ) :
    mapGet (m.filter (fun p => decide (p.1 = k))) k = mapGet m k := by
  induction m with
  | nil => rfl
  | cons q m ih =>
    rw [List.filter_cons]
    by_cases hq : q.1 = k
    · rw [if_pos (by simpa using hq), mapGet_cons_self hq, mapGet_cons_self hq]
    · rw [if_neg (by simpa using hq), mapGet_cons_other hq]
      exact ih

theorem bucketL_of_mem {m : EventMap} (hnd : (m.map Prod.fst).Nodup) {k : Int}
    {l : List StoredPactEventData} (h : (k, l) ∈ m) : bucketL m k = l := by
  unfold bucketL
  rw [mem_mapGet hnd h]
  rfl

theorem sel_nil_of_all_cur (env : Env) (recent : List String) (t cur : Int) :
    ∀ m : EventMap, (∀ p ∈ m, p.1 = cur) →
      selectEventsToMove env m cur t recent = [] := by
  intro m
  induction m with
  | nil => intro _; rfl
  | cons q m ih =>
    intro hall
    rw [sel_cons, if_pos (hall q (List.mem_cons_self _ _))]
    rw [List.nil_append]
    exact ih (fun p hp => hall p (List.mem_cons_of_mem _ hp))

theorem noFailOracle_fails (n : Nat) : noFailOracle.fails n = false := rfl

theorem run_noFail_isOk (env : Env) (t : Int) (s : Storage) (mC : EventMap)
    (hc : consolidateEventsCore env t s.events = some mC) :
    ∃ res s', getEventsToPublishRun noFailOracle env t s = (Except.ok res, s') := by
  by_cases hde : (bucketsToDelete mC (getMinuteBucket t env.MINUTE_BUCKET_MS)).isEmpty = true
  · refine ⟨eventsToSend mC (getMinuteBucket t env.MINUTE_BUCKET_MS),
      { s with events := mC, lastProcessTime := t }, ?_⟩
    simp only [getEventsToPublishRun, noFailOracle_fails, Bool.false_eq_true, if_false, hc,
      hde, if_true]
  · refine ⟨eventsToSend mC (getMinuteBucket t env.MINUTE_BUCKET_MS),
      { s with
        events := deleteBuckets mC (bucketsToDelete mC (getMinuteBucket t env.MINUTE_BUCKET_MS))
        lastProcessTime := t
        totalProcessed := s.totalProcessed +
          (eventsToSend mC (getMinuteBucket t env.MINUTE_BUCKET_MS)).length
        lastProcessedCount :=
          (eventsToSend mC (getMinuteBucket t env.MINUTE_BUCKET_MS)).length }, ?_⟩
    simp only [getEventsToPublishRun, noFailOracle_fails, Bool.false_eq_true, if_false, hc,
      hde, if_false]

end ClaimHelpers


section Claims

/-- Claim C1: drain completeness.  For every starting state, after a call to
getEventsToPublish that completes without a storage error, the event store
contains no bucket whose minute-key differs from the current minute
floor(now / MINUTE_BUCKET_MS); every bucket of the consolidated store whose
minute-key is not the current minute has all its events in the returned list
and is deleted from the store. -/
theorem C1_drain_completeness (o : Oracle) (env : Env) (t : Int) (s : Storage)
    (res : List StoredPactEventData) (s' : Storage)
    (h : getEventsToPublishRun o env t s = (Except.ok res, s')) :
    (∀ p ∈ s'.events, p.1 = currentMinuteOf env t) ∧
    (∀ mC, consolidateEventsCore env t s.events = some mC →
      ∀ p ∈ mC, ¬ p.1 = currentMinuteOf env t →
        (∀ e ∈ p.2, e ∈ res) ∧ mapGet s'.events p.1 = none) := by
  obtain ⟨mC, hc, hres, hsev⟩ := getEventsToPublishRun_ok_spec h
  constructor
  · intro p hp
    rw [hsev] at hp
    rcases List.mem_filter.mp hp with ⟨_, hp2⟩
    exact of_decide_eq_true hp2
  · intro mC' hmc p hp hpk
    rw [hc] at hmc
    injection hmc with heq
    rw [← heq] at hp
    constructor
    · intro e he
      rw [hres]
      unfold eventsToSend
      rw [List.mem_flatten]
      refine ⟨p.2, List.mem_map.mpr ⟨p, List.mem_filter.mpr ⟨hp, by simpa using hpk⟩, rfl⟩, he⟩
    · rw [hsev]
      apply mapGet_none_of_all
      intro q hq
      rcases List.mem_filter.mp hq with ⟨_, hq2⟩
      rw [of_decide_eq_true hq2]
      exact fun he => hpk he.symm

/-- Claim C2: current-bucket immunity.  The current-minute bucket is never
drained by getEventsToPublish: the stored current bucket after the call is
exactly the current bucket of the consolidated store, every returned event
comes from a bucket of the consolidated store whose key is not the current
minute, and in particular an event that after the consolidation pass resides
only in the current-minute bucket does not appear in the returned list,
regardless of its age. -/
theorem C2_current_bucket_immunity (o : Oracle) (env : Env) (t : Int) (s : Storage)
    (res : List StoredPactEventData) (s' : Storage)
    (h : getEventsToPublishRun o env t s = (Except.ok res, s')) :
    ∀ mC, consolidateEventsCore env t s.events = some mC →
      (mapGet s'.events (currentMinuteOf env t) = mapGet mC (currentMinuteOf env t)) ∧
      (∀ e ∈ res, ∃ p ∈ mC, ¬ p.1 = currentMinuteOf env t ∧ e ∈ p.2) ∧
      (∀ e, e ∈ bucketL mC (currentMinuteOf env t) →
        (∀ p ∈ mC, ¬ p.1 = currentMinuteOf env t → e ∉ p.2) → e ∉ res) := by
  intro mC' hmc
  obtain ⟨mC, hc, hres, hsev⟩ := getEventsToPublishRun_ok_spec h
  rw [hc] at hmc
  injection hmc with heq
  subst heq
  have hmem : ∀ e ∈ res, ∃ p ∈ mC, ¬ p.1 = currentMinuteOf env t ∧ e ∈ p.2 := by
    intro e he
    rw [hres] at he
    unfold eventsToSend at he
    rw [List.mem_flatten] at he
    obtain ⟨l, hl, hel⟩ := he
    rw [List.mem_map] at hl
    obtain ⟨p, hp, rfl⟩ := hl
    rcases List.mem_filter.mp hp with ⟨hp1, hp2⟩
    exact ⟨p, hp1, of_decide_eq_true hp2, hel⟩
  refine ⟨?_, hmem, ?_⟩
  · rw [hsev]
    exact mapGet_filter_key mC (currentMinuteOf env t)
  · intro e _ honly hres2
    obtain ⟨p, hp, hpk, hep⟩ := hmem e hres2
    exact honly p hp hpk hep

/-- Claim C3: max-time override.  A stored event in a non-current bucket whose
age now - ts exceeds MAX_TIME_BEFORE_FLUSHING when getEventsToPublish runs is
not selected for consolidation into the current bucket (even when its version
number is in the recent-version set) and is included in the returned list of
the error-free call. -/
theorem C3_max_time_override (env : Env) (t : Int) (s : Storage)
    (hnd : (s.events.map Prod.fst).Nodup)
    (k : Int) (l : List StoredPactEventData) (e : StoredPactEventData)
    (hb : (k, l) ∈ s.events) (hk : ¬ k = currentMinuteOf env t) (he : e ∈ l)
    (hage : env.MAX_TIME_BEFORE_FLUSHING < t - e.ts) :
    e ∉ (selOf env t s.events).map Prod.fst ∧
    e ∈ (getEventsToPublish noFailOracle env t s).1 := by
  have hbl : bucketL s.events k = l := by
    unfold bucketL
    rw [mem_mapGet hnd hb]
    rfl
  have hnotsel : e ∉ (selOf env t s.events).map Prod.fst := by
    intro hmem
    rw [List.mem_map] at hmem
    obtain ⟨p, hp, hpe⟩ := hmem
    have hcond := (sel_forall env (recentOf env t s.events) t
      (currentMinuteOf env t) s.events p hp).2.1
    unfold moveCond at hcond
    rw [Bool.and_eq_true, decide_eq_true_eq, decide_eq_true_eq] at hcond
    rw [hpe] at hcond
    omega
  refine ⟨hnotsel, ?_⟩
  obtain ⟨mC, hc, hndC, hcnt, hcur, hsurv⟩ := consolidate_spec env t s.events hnd
  have hfree : ∀ p ∈ selOf env t s.events, ¬ (p.2 = k ∧ evKey p.1 = evKey e) := by
    rintro p hp ⟨_, hpk⟩
    have hcond := (sel_forall env (recentOf env t s.events) t
      (currentMinuteOf env t) s.events p hp).2.1
    unfold moveCond at hcond
    rw [Bool.and_eq_true, decide_eq_true_eq, decide_eq_true_eq] at hcond
    have hts : p.1.ts = e.ts := congrArg Prod.fst hpk
    omega
  have heC : e ∈ bucketL mC k := hsurv k hk e (by rw [hbl]; exact he) hfree
  obtain ⟨res, s', hrun⟩ := run_noFail_isOk env t s mC hc
  obtain ⟨mC', hc', hres, _⟩ := getEventsToPublishRun_ok_spec hrun
  rw [hc] at hc'
  injection hc' with heq
  subst heq
  rw [getEventsToPublish_of_run_ok hrun]
  rw [hres]
  unfold eventsToSend
  rw [List.mem_flatten]
  have hgetC : mapGet mC k = some (bucketL mC k) := bucketL_mem_get heC
  have hmemC : (k, bucketL mC k) ∈ mC := mapGet_eq_some_mem hgetC
  exact ⟨bucketL mC k, List.mem_map.mpr ⟨(k, bucketL mC k),
    List.mem_filter.mpr ⟨hmemC, by simpa using hk⟩, rfl⟩, heC⟩

/-- Claim C4: consolidation idempotence.  Calling getEventsToPublish twice in
immediate succession, with no event added in between and the clock unchanged,
returns the empty list the second time. -/
theorem C4_consolidation_idempotence (env : Env) (t : Int) (s : Storage)
    (hnd : (s.events.map Prod.fst).Nodup) :
    (getEventsToPublish noFailOracle env t
      (getEventsToPublish noFailOracle env t s).2).1 = [] := by
  obtain ⟨mC, hc, _, _, _, _⟩ := consolidate_spec env t s.events hnd
  obtain ⟨res, s', hrun⟩ := run_noFail_isOk env t s mC hc
  obtain ⟨mC', hc', hres, hsev⟩ := getEventsToPublishRun_ok_spec hrun
  rw [getEventsToPublish_of_run_ok hrun]
  have hall : ∀ p ∈ s'.events, p.1 = currentMinuteOf env t := by
    rw [hsev]
    intro p hp
    rcases List.mem_filter.mp hp with ⟨_, hp2⟩
    exact of_decide_eq_true hp2
  have hsel2 : selOf env t s'.events = [] :=
    sel_nil_of_all_cur env (recentOf env t s'.events) t (currentMinuteOf env t) s'.events hall
  have hc2 : consolidateEventsCore env t s'.events = some s'.events := by
    rw [consolidateEventsCore_eq, hsel2]
    rfl
  obtain ⟨res₂, s'', hrun₂⟩ := run_noFail_isOk env t s' s'.events hc2
  obtain ⟨mC₂, hc₂, hres₂, _⟩ := getEventsToPublishRun_ok_spec hrun₂
  rw [hc2] at hc₂
  injection hc₂ with heq
  subst heq
  rw [getEventsToPublish_of_run_ok hrun₂]
  rw [hres₂]
  unfold eventsToSend
  have hfil : s'.events.filter (fun p => decide (p.1 ≠ currentMinuteOf env t)) = [] := by
    rw [List.filter_eq_nil_iff]
    intro p hp
    simp only [decide_eq_true_eq, ne_eq, not_not]
    exact hall p hp
  rw [hfil]
  rfl

/-- Claim C5: quiet-period retention.  An event of the immediately preceding
minute bucket whose timestamp is younger than now - QUIET_PERIOD_MS and whose
age is below MAX_TIME_BEFORE_FLUSHING has its version number in the
recent-version set, is moved into the current-minute bucket by the
consolidation pass, is not included in the list returned by the error-free
call, and stays stored for a later call. -/
theorem C5_quiet_period_retention (env : Env) (t : Int) (s : Storage)
    (hnd : (s.events.map Prod.fst).Nodup)
    (e : StoredPactEventData)
    (he : e ∈ bucketL s.events (currentMinuteOf env t - 1))
    (hq : t - env.QUIET_PERIOD_MS < e.ts)
    (hmax : t - e.ts < env.MAX_TIME_BEFORE_FLUSHING) :
    e.pacticipantVersionNumber ∈ recentOf env t s.events ∧
    (∀ mC, consolidateEventsCore env t s.events = some mC →
      e ∈ bucketL mC (currentMinuteOf env t)) ∧
    e ∉ (getEventsToPublish noFailOracle env t s).1 ∧
    e ∈ mapFlatten (getEventsToPublish noFailOracle env t s).2.events := by
  have hprev : ¬ (currentMinuteOf env t - 1 = currentMinuteOf env t) := by omega
  have hrec : e.pacticipantVersionNumber ∈ recentOf env t s.events := by
    unfold recentOf getRecentVersionNumbers
    refine List.mem_append.mpr (Or.inr ?_)
    exact List.mem_map.mpr ⟨e, List.mem_filter.mpr ⟨he, by simpa using hq⟩, rfl⟩
  have hcond : moveCond env (recentOf env t s.events) t e = true := by
    unfold moveCond
    rw [Bool.and_eq_true, decide_eq_true_eq, decide_eq_true_eq]
    exact ⟨hrec, by omega⟩
  obtain ⟨mC, hc, hndC, hcnt, hcur, _⟩ := consolidate_spec env t s.events hnd
  have hselmem : (e, currentMinuteOf env t - 1) ∈ selOf env t s.events := by
    have hget := bucketL_mem_get he
    exact sel_of_mem env (recentOf env t s.events) t (currentMinuteOf env t)
      (mapGet_eq_some_mem hget) hprev he hcond
  have hinC : e ∈ bucketL mC (currentMinuteOf env t) := by
    rw [hcur]
    exact List.mem_append.mpr (Or.inr (List.mem_map.mpr ⟨_, hselmem, rfl⟩))
  obtain ⟨res, s', hrun⟩ := run_noFail_isOk env t s mC hc
  obtain ⟨mC', hc', hres, hsev⟩ := getEventsToPublishRun_ok_spec hrun
  rw [hc] at hc'
  injection hc' with heq
  subst heq
  rw [getEventsToPublish_of_run_ok hrun]
  refine ⟨hrec, ?_, ?_, ?_⟩
  · intro mC₂ hc₂
    rw [hc] at hc₂
    injection hc₂ with heq₂
    rw [← heq₂]
    exact hinC
  · intro hmem
    rw [hres] at hmem
    unfold eventsToSend at hmem
    rw [List.mem_flatten] at hmem
    obtain ⟨l, hl, hel⟩ := hmem
    rw [List.mem_map] at hl
    obtain ⟨p, hp, rfl⟩ := hl
    rcases List.mem_filter.mp hp with ⟨hp1, hp2⟩
    have hpne : ¬ p.1 = currentMinuteOf env t := of_decide_eq_true hp2
    have hbl : bucketL mC p.1 = p.2 := bucketL_of_mem hndC hp1
    have hcnt2 := hcnt p.1 hpne (evKey e)
    rw [show selOf env t s.events = selectEventsToMove env s.events
      (currentMinuteOf env t) t (recentOf env t s.events) from rfl] at hcnt2
    rw [tmCount_sel env (recentOf env t s.events) t (currentMinuteOf env t)
      s.events hnd p.1 (evKey e)] at hcnt2
    rw [if_neg hpne] at hcnt2
    have hckk : moveCondK env (recentOf env t s.events) t (evKey e) = true := by
      rw [← moveCond_eq_K]
      exact hcond
    rw [if_pos hckk] at hcnt2
    have hzero : keyCountL (bucketL mC p.1) (evKey e) = 0 := by omega
    rw [hbl] at hzero
    unfold keyCountL at hzero
    rw [List.countP_eq_zero] at hzero
    exact hzero e hel (by simp)
  · have hbpres : bucketL s'.events (currentMinuteOf env t) =
        bucketL mC (currentMinuteOf env t) := by
      unfold bucketL
      rw [hsev, mapGet_filter_key]
    exact bucketL_subset_flatten (by rw [hbpres]; exact hinC)

/-- Claim C6: event conservation under consolidation.  When no two stored
events share the same (ts, pacticipantVersionNumber) pair, the consolidation
pass preserves the multiset of stored events, and the events returned by the
error-free getEventsToPublish together with the events remaining in the store
are exactly the events stored before the call. -/
theorem C6_event_conservation (env : Env) (t : Int) (s : Storage)
    (hnd : (s.events.map Prod.fst).Nodup)
    (hU : ((mapFlatten s.events).map evKey).Nodup) :
    ∃ mC, consolidateEventsCore env t s.events = some mC ∧
      (mapFlatten mC).Perm (mapFlatten s.events) ∧
      ((getEventsToPublish noFailOracle env t s).1 ++
        mapFlatten (getEventsToPublish noFailOracle env t s).2.events).Perm
        (mapFlatten s.events) := by
  obtain ⟨mC, hc, hndC, _, _, _⟩ := consolidate_spec env t s.events hnd
  have hperm := consolidate_perm env t s.events hnd hU mC hc
  obtain ⟨res, s', hrun⟩ := run_noFail_isOk env t s mC hc
  obtain ⟨mC', hc', hres, hsev⟩ := getEventsToPublishRun_ok_spec hrun
  rw [hc] at hc'
  injection hc' with heq
  subst heq
  refine ⟨mC, hc, hperm, ?_⟩
  rw [getEventsToPublish_of_run_ok hrun]
  have hsplit := List.filter_append_perm (fun p => decide (p.1 ≠ currentMinuteOf env t)) mC
  have hfc : mC.filter (fun x => !(decide (x.1 ≠ currentMinuteOf env t))) =
      mC.filter (fun p => decide (p.1 = currentMinuteOf env t)) := by
    refine List.filter_congr (fun p _ => ?_)
    by_cases hpc : p.1 = currentMinuteOf env t <;> simp [hpc]
  rw [hfc] at hsplit
  have h2 := hsplit.map Prod.snd
  have h3 := h2.flatten
  rw [List.map_append, List.flatten_append] at h3
  rw [hres, hsev]
  exact List.Perm.trans h3 hperm

/-- Claim C7 (amended): setPublicationThreadTs overwrites the entry at the
derived key, taking ts and payload from the call, but channelId falls back to
the prior entry's channelId when the call omits it and the prior entry's
summary is always carried over; entries at other keys are unchanged. -/
theorem C7_thread_info_replace (pub : PubPayload) (channel threadTs : String)
    (channelId : Option String) (threads : List (String × PublicationThreadInfo)) :
    mapGet (setPublicationThreadTs pub channel threadTs channelId threads)
      (makeKeyForPublicationThread pub channel) =
      some { ts := threadTs
             channelId := channelId.orElse (fun _ =>
               (mapGet threads (makeKeyForPublicationThread pub channel)).bind
                 (fun i => i.channelId))
             payload := pub
             summary := (mapGet threads (makeKeyForPublicationThread pub channel)).bind
               (fun i => i.summary) } ∧
    (∀ k, ¬ k = makeKeyForPublicationThread pub channel →
      mapGet (setPublicationThreadTs pub channel threadTs channelId threads) k =
        mapGet threads k) := by
  constructor
  · exact mapGet_set_self threads _ _
  · intro k hk
    exact mapGet_set_other threads hk _

/-- Claim C7, counterexample to the claim as stated: a second call for the
same key that omits channelId does not fully replace the prior entry — the
stored entry keeps the prior call's channelId instead of being built only
from the second call's arguments. -/
theorem C7_counterexample :
    (mapGet (setPublicationThreadTs
        (PubPayload.contractRequiringVerificationPublished "P" "C" "main"
          "http://x/pact-version/abc/extra" "") "ch" "222" none
        (setPublicationThreadTs
          (PubPayload.contractRequiringVerificationPublished "P" "C" "main"
            "http://x/pact-version/abc/extra" "") "ch" "111" (some "CID") []))
      (makeKeyForPublicationThread
        (PubPayload.contractRequiringVerificationPublished "P" "C" "main"
          "http://x/pact-version/abc/extra" "") "ch")).map
      (fun i => i.channelId) = some (some "CID") ∧
    ¬ (some (some "CID") = some (none : Option String)) := by
  constructor
  · rfl
  · intro h
    simp at h

/-- Claim C8: addEvent error swallowing.  If any storage operation inside
addEvent throws, the method still returns normally with the storage state the
throw left behind (the catch swallows the error), and the stored event map is
unchanged — the call degrades to a no-op on the event store and the event may
be lost. -/
theorem C8_addEvent_error_swallowing (o : Oracle) (env : Env) (t : Int) (s : Storage)
    (eventData : PactEventData) (k : Nat) (s' : Storage)
    (h : addEventRun o env t s eventData = (Except.error k, s')) :
    addEvent o env t s eventData = s' ∧
    (addEvent o env t s eventData).events = s.events := by
  constructor
  · rw [addEvent_eq_run, h]
  · rw [addEvent_eq_run, h]
    exact addEventRun_err_events h

/-- Claim C9 (amended): if a storage operation during getEventsToPublish
throws, the call returns the empty list; every event stored before the call is
still stored afterwards provided the error is not one of the processing-stats
operations (the totalProcessed read and the two stat writes, operations 5-7),
which run only after the bucket-deletion write has persisted. -/
theorem C9_error_degradation (o : Oracle) (env : Env) (t : Int) (s : Storage)
    (hnd : (s.events.map Prod.fst).Nodup) (k : Nat) (s' : Storage)
    (h : getEventsToPublishRun o env t s = (Except.error k, s'))
    (hk5 : ¬ k = 5) (hk6 : ¬ k = 6) (hk7 : ¬ k = 7) :
    getEventsToPublish o env t s = ([], s') ∧
    (∀ e ∈ mapFlatten s.events, e ∈ mapFlatten s'.events) := by
  refine ⟨getEventsToPublish_of_run_err h, ?_⟩
  rcases getEventsToPublishRun_err_spec h hk5 hk6 hk7 with hcase | hcase
  · rw [hcase]
    exact fun e he => he
  · exact consolidate_mem env t s.events hnd s'.events hcase

/-- Claim C9, counterexample to the claim as stated: a storage error in the
totalProcessed read (operation 5, after the deletion write persisted) makes
the call return the empty list while the drained event is gone from the
store. -/
theorem C9_counterexample :
    (getEventsToPublish ⟨fun n => n == 5⟩ ⟨60000, 10000, 300000⟩ 180000
      ⟨0, 0, [(1, [⟨"v1", "", 60000⟩])], 0, 0, []⟩).1 = [] ∧
    (⟨"v1", "", 60000⟩ : StoredPactEventData) ∈
      mapFlatten (⟨0, 0, [(1, [⟨"v1", "", 60000⟩])], 0, 0, []⟩ : Storage).events ∧
    (⟨"v1", "", 60000⟩ : StoredPactEventData) ∉
      mapFlatten (getEventsToPublish ⟨fun n => n == 5⟩ ⟨60000, 10000, 300000⟩ 180000
        ⟨0, 0, [(1, [⟨"v1", "", 60000⟩])], 0, 0, []⟩).2.events := by
  refine ⟨rfl, ?_, ?_⟩
  · decide
  · decide

/-- Claim C10 (amended): during the move step, if the origin bucket key is
absent from the store the unguarded access raises (modelled as none); if the
bucket exists but holds no event with the exact (ts, pacticipantVersionNumber)
pair, findIndex returns -1 and splice(-1, 1) silently removes the bucket's
last element (nothing when it is empty) while the event is still appended to
the current bucket, and the move proceeds without raising. -/
theorem C10_move_missing_behavior (ev : StoredPactEventData) (b cur : Int)
    (rest : List (StoredPactEventData × Int)) (m : EventMap) :
    (mapGet m b = none → moveEvents ((ev, b) :: rest) cur m = none) ∧
    (∀ l, mapGet m b = some l → (∀ x ∈ l, ¬ evKey x = evKey ev) →
      moveEvents ((ev, b) :: rest) cur m =
        moveEvents rest cur
          (mapSet (mapSet m b l.dropLast) cur
            (((mapGet (mapSet m b l.dropLast) cur).getD []) ++ [ev]))) := by
  constructor
  · intro hget
    unfold moveEvents
    rw [hget]
  · intro l hget hnomatch
    have h1 := moveEvents_cons_eq ev b cur rest m l hget
    rw [jsFindIndex_neg_one ev l hnomatch, jsSplice_neg_one] at h1
    exact h1

/-- Claim C10, counterexample to the claim as stated: with the origin bucket
present but not containing the exact (ts, pacticipantVersionNumber) pair, the
move does not raise — it silently removes the bucket's last element and
appends the event to the current bucket. -/
theorem C10_counterexample :
    moveEvents [((⟨"Z", "", 7⟩ : StoredPactEventData), 0)] 5
        [(0, [⟨"A", "", 1⟩, ⟨"B", "", 2⟩])] =
      some [(0, [⟨"A", "", 1⟩]), (5, [⟨"Z", "", 7⟩])] ∧
    ¬ moveEvents [((⟨"Z", "", 7⟩ : StoredPactEventData), 0)] 5
        [(0, [⟨"A", "", 1⟩, ⟨"B", "", 2⟩])] = none := by
  constructor
  · decide
  · decide

/-- Concrete configuration used by the witnesses: the defaults of the source
(MINUTE_BUCKET_MS 60000, QUIET_PERIOD_MS 10000, MAX_TIME_BEFORE_FLUSHING
300000). -/
def envW : Env := ⟨60000, 10000, 300000⟩

def evW : StoredPactEventData := ⟨"v1", "", 60000⟩

def sW : Storage := ⟨0, 0, [(1, [evW])], 0, 0, []⟩

def sW' : Storage := ⟨0, 180000, [], 1, 1, []⟩

def oW0 : Oracle := ⟨fun n => n == 0⟩

def pubW : PubPayload :=
  .contractRequiringVerificationPublished "P" "C" "main" "http://x/pact-version/abc/extra" ""

theorem C1_witness :
    getEventsToPublishRun noFailOracle envW 180000 sW = (Except.ok [evW], sW') ∧
    ((∀ p ∈ sW'.events, p.1 = currentMinuteOf envW 180000) ∧
     (∀ mC, consolidateEventsCore envW 180000 sW.events = some mC →
       ∀ p ∈ mC, ¬ p.1 = currentMinuteOf envW 180000 →
         (∀ e ∈ p.2, e ∈ [evW]) ∧ mapGet sW'.events p.1 = none)) :=
  ⟨by rfl, C1_drain_completeness noFailOracle envW 180000 sW [evW] sW' (by rfl)⟩

theorem C2_witness :
    getEventsToPublishRun noFailOracle envW 180000 sW = (Except.ok [evW], sW') ∧
    (∀ mC, consolidateEventsCore envW 180000 sW.events = some mC →
      (mapGet sW'.events (currentMinuteOf envW 180000) =
        mapGet mC (currentMinuteOf envW 180000)) ∧
      (∀ e ∈ [evW], ∃ p ∈ mC, ¬ p.1 = currentMinuteOf envW 180000 ∧ e ∈ p.2) ∧
      (∀ e, e ∈ bucketL mC (currentMinuteOf envW 180000) →
        (∀ p ∈ mC, ¬ p.1 = currentMinuteOf envW 180000 → e ∉ p.2) → e ∉ [evW])) :=
  ⟨by rfl, C2_current_bucket_immunity noFailOracle envW 180000 sW [evW] sW' (by rfl)⟩

theorem C3_witness :
    ((sW.events.map Prod.fst).Nodup ∧ (1, [evW]) ∈ sW.events ∧
      ¬ (1 : Int) = currentMinuteOf envW 420000 ∧ evW ∈ [evW] ∧
      envW.MAX_TIME_BEFORE_FLUSHING < 420000 - evW.ts) ∧
    (evW ∉ (selOf envW 420000 sW.events).map Prod.fst ∧
      evW ∈ (getEventsToPublish noFailOracle envW 420000 sW).1) :=
  ⟨⟨by decide, by decide, by decide, by decide, by decide⟩,
    C3_max_time_override envW 420000 sW (by decide) 1 [evW] evW (by decide) (by decide)
      (by decide) (by decide)⟩

theorem C4_witness :
    ((sW.events.map Prod.fst).Nodup) ∧
    (getEventsToPublish noFailOracle envW 180000
      (getEventsToPublish noFailOracle envW 180000 sW).2).1 = [] :=
  ⟨by decide, C4_consolidation_idempotence envW 180000 sW (by decide)⟩

def evQ : StoredPactEventData := ⟨"Q", "", 175000⟩

def sQ : Storage := ⟨0, 0, [(2, [evQ])], 0, 0, []⟩

theorem C5_witness :
    ((sQ.events.map Prod.fst).Nodup ∧
      evQ ∈ bucketL sQ.events (currentMinuteOf envW 180000 - 1) ∧
      180000 - envW.QUIET_PERIOD_MS < evQ.ts ∧
      180000 - evQ.ts < envW.MAX_TIME_BEFORE_FLUSHING) ∧
    (evQ.pacticipantVersionNumber ∈ recentOf envW 180000 sQ.events ∧
      (∀ mC, consolidateEventsCore envW 180000 sQ.events = some mC →
        evQ ∈ bucketL mC (currentMinuteOf envW 180000)) ∧
      evQ ∉ (getEventsToPublish noFailOracle envW 180000 sQ).1 ∧
      evQ ∈ mapFlatten (getEventsToPublish noFailOracle envW 180000 sQ).2.events) :=
  ⟨⟨by decide, by decide, by decide, by decide⟩,
    C5_quiet_period_retention envW 180000 sQ (by decide) evQ (by decide) (by decide)
      (by decide)⟩

theorem C6_witness :
    ((sW.events.map Prod.fst).Nodup ∧ ((mapFlatten sW.events).map evKey).Nodup) ∧
    (∃ mC, consolidateEventsCore envW 180000 sW.events = some mC ∧
      (mapFlatten mC).Perm (mapFlatten sW.events) ∧
      ((getEventsToPublish noFailOracle envW 180000 sW).1 ++
        mapFlatten (getEventsToPublish noFailOracle envW 180000 sW).2.events).Perm
        (mapFlatten sW.events)) :=
  ⟨⟨by decide, by decide⟩, C6_event_conservation envW 180000 sW (by decide) (by decide)⟩

theorem C7_witness :
    (¬ "other" = makeKeyForPublicationThread pubW "ch") ∧
    mapGet (setPublicationThreadTs pubW "ch" "222" none []) "other" =
      mapGet ([] : List (String × PublicationThreadInfo)) "other" :=
  ⟨by decide, (C7_thread_info_replace pubW "ch" "222" none []).2 "other" (by decide)⟩

theorem C8_witness :
    (addEventRun oW0 envW 100 sW ⟨"x", ""⟩ = (Except.error 0, sW)) ∧
    (addEvent oW0 envW 100 sW ⟨"x", ""⟩ = sW ∧
      (addEvent oW0 envW 100 sW ⟨"x", ""⟩).events = sW.events) :=
  ⟨by rfl, C8_addEvent_error_swallowing oW0 envW 100 sW ⟨"x", ""⟩ 0 sW (by rfl)⟩

theorem C9_witness :
    ((sW.events.map Prod.fst).Nodup ∧
      getEventsToPublishRun oW0 envW 180000 sW = (Except.error 0, sW) ∧
      ¬ (0 : Nat) = 5 ∧ ¬ (0 : Nat) = 6 ∧ ¬ (0 : Nat) = 7) ∧
    (getEventsToPublish oW0 envW 180000 sW = ([], sW) ∧
      (∀ e ∈ mapFlatten sW.events, e ∈ mapFlatten sW.events)) :=
  ⟨⟨by decide, by rfl, by decide, by decide, by decide⟩,
    C9_error_degradation oW0 envW 180000 sW (by decide) 0 sW (by rfl) (by decide)
      (by decide) (by decide)⟩

theorem C10_witness :
    (mapGet ([(0, [⟨"A", "", 1⟩])] : EventMap) 3 = none) ∧
    moveEvents [((⟨"Z", "", 7⟩ : StoredPactEventData), 3)] 5 [(0, [⟨"A", "", 1⟩])] = none :=
  ⟨by decide,
    (C10_move_missing_behavior ⟨"Z", "", 7⟩ 3 5 [] [(0, [⟨"A", "", 1⟩])]).1 (by rfl)⟩

end Claims

end PactSlack
